import Mathlib

/-!
Shallow embedding of the `invoke` trie-based HTTP router (`router.go`).

Strings are handled through their character lists so that every definition
is structurally recursive and kernel-computable.  Handlers and hooks, which
are opaque Go functions, are represented by identifiers together with a
finite description of their observable behaviour (return normally, return
an abort signal, or panic); a dispatch produces the trace of invocation
events, which is what the specification's claims talk about.
-/

namespace Invoke

/-! ### String helpers mirroring the Go standard library calls used -/

/-- ASCII case folding of one character; models `strings.ToLower` on the
ASCII inputs the router deals with. -/
def lowerChar (c : Char) : Char :=
  if 'A' ≤ c ∧ c ≤ 'Z' then Char.ofNat (c.toNat + 32) else c

/-- Models `strings.ToLower` (restricted to ASCII case folding). -/
def toLowerStr (s : String) : String :=
  String.mk (s.data.map lowerChar)

/-- Models `strings.Trim(path, "/")`: strips all leading and trailing `'/'`
characters. -/
def trimSlashes (l : List Char) : List Char :=
  ((l.dropWhile (· == '/')).reverse.dropWhile (· == '/')).reverse

/-- Models `strings.Split(s, "/")` (nonempty separator): splitting an empty
string yields `[""]`. -/
def splitOnSlash : List Char → List Char → List String
  | [], acc => [String.mk acc.reverse]
  | c :: cs, acc =>
    if c == '/' then String.mk acc.reverse :: splitOnSlash cs []
    else splitOnSlash cs (c :: acc)

/-- `splitPath` from router.go: `strings.Split(strings.Trim(path, "/"), "/")`. -/
def splitPath (path : String) : List String :=
  splitOnSlash (trimSlashes path.data) []

/-- Worker for `strings.SplitN(s, ":", 2)`: cut at the first colon only. -/
def splitN2Aux : List Char → List Char → Char → List String
  | [], acc, _ => [String.mk acc.reverse]
  | x :: xs, acc, c =>
    if x == c then [String.mk acc.reverse, String.mk xs]
    else splitN2Aux xs (x :: acc) c

/-- Models `strings.SplitN(s, sep, 2)` for a one-character separator. -/
def splitN2 (s : String) (c : Char) : List String :=
  splitN2Aux s.data [] c

/-! ### Node classification (`getNodeTypeAndPattern`) -/

/-- `NodeType` from router.go. -/
inductive NodeType where
  | Static
  | Param
  | Regex
deriving DecidableEq, Repr

/-- `getNodeTypeAndPattern` from router.go: a segment beginning with `:` is a
Param (name after the colon); a segment `\x7bname:pat\x7d` is a Regex segment
(returned as `(Regex, pat, name)`); anything else is Static. -/
def getNodeTypeAndPattern (part : String) : NodeType × String × String :=
  match part.data with
  | ':' :: rest => (NodeType.Param, String.mk rest, "")
  | '{' :: rest =>
    match rest.reverse with
    | '}' :: revContent =>
      match splitN2 (String.mk revContent.reverse) ':' with
      | [name, pat] => (NodeType.Regex, pat, name)
      | _ => (NodeType.Static, part, "")
    | _ => (NodeType.Static, part, "")
  | _ => (NodeType.Static, part, "")

/-! ### A small regexp engine with Go (RE2/Perl, leftmost-first) semantics

`ServeHTTP` evaluates `regexp.MustCompile(pat).FindString(part)` on Regex
nodes.  Go's `FindString` returns the match that starts leftmost in the
input and, among matches at that position, the one a backtracking search
would find first (left alternative preferred, greedy repetition); it
returns the empty string when there is no match at all.  The engine below
implements exactly that preference order for the regexp fragment the
router exercises: literal characters, character classes with ranges,
grouping, alternation and `* + ?` repetition.  A pattern outside this
fragment is rejected by the compiler, which models the `MustCompile`
panic. -/

/-- Abstract syntax of the supported regexp fragment. -/
inductive Regexp where
  | emptyR
  | lit (c : Char)
  | cls (items : List (Char × Char))
  | alt (a b : Regexp)
  | seq (a b : Regexp)
  | star (a : Regexp)
deriving DecidableEq, Repr

/-- Structural size of a regexp, used to pick an ample fuel bound. -/
def sizeR : Regexp → Nat
  | .emptyR => 1
  | .lit _ => 1
  | .cls _ => 1
  | .alt a b => sizeR a + sizeR b + 1
  | .seq a b => sizeR a + sizeR b + 1
  | .star a => sizeR a + 1

/-- Does character `a` fall in one of the class ranges? -/
def inClass (items : List (Char × Char)) (a : Char) : Bool :=
  items.any (fun p => decide (p.1 ≤ a) && decide (a ≤ p.2))

/-- All ways the regexp can match a prefix of `s`, as the list of remaining
suffixes in backtracking preference order (left alternative first, greedy
repetition first).  Structural recursion on the fuel; the fuel only needs to
exceed the recursion depth, which lexicographic descent of
(input length, regexp size) bounds by their product. -/
def allResF : Nat → Regexp → List Char → List (List Char)
  | 0, _, _ => []
  | _ + 1, .emptyR, s => [s]
  | _ + 1, .lit c, s =>
    match s with
    | [] => []
    | a :: rest => if a == c then [rest] else []
  | _ + 1, .cls items, s =>
    match s with
    | [] => []
    | a :: rest => if inClass items a then [rest] else []
  | f + 1, .alt a b, s => allResF f a s ++ allResF f b s
  | f + 1, .seq a b, s => (allResF f a s).flatMap (fun s2 => allResF f b s2)
  | f + 1, .star a, s =>
    ((allResF f a s).filter (fun s2 => s2.length < s.length)).flatMap
      (fun s2 => allResF f (.star a) s2) ++ [s]

/-- Fuel that exceeds the backtracking depth for input `s`. -/
def bigFuel (r : Regexp) (s : List Char) : Nat :=
  (s.length + 1) * (sizeR r + 1) + 1

/-- Length of the preferred match of `r` starting exactly at the head of
`s`, if any. -/
def matchLenAt (r : Regexp) (s : List Char) : Option Nat :=
  match (allResF (bigFuel r s) r s).head? with
  | some s2 => some (s.length - s2.length)
  | none => none

/-- The leftmost-first match of `r` inside `s`, as `FindString` locates it:
try each start position from the left, and at the first position with a
match return the preferred match's text. -/
def findFromR (r : Regexp) : List Char → Option (List Char)
  | [] =>
    match matchLenAt r [] with
    | some n => some (([] : List Char).take n)
    | none => none
  | c :: rest =>
    match matchLenAt r (c :: rest) with
    | some n => some ((c :: rest).take n)
    | none => findFromR r rest

/-- Models `regexp.FindString`: the matched text, or `""` (here `[]`) when
there is no match — Go's documented behaviour conflates the two. -/
def goFindString (r : Regexp) (s : List Char) : List Char :=
  (findFromR r s).getD []

/-- Whole-string membership of the regexp language, the specification's
notion of an anchored whole-segment match. -/
inductive Matches : Regexp → List Char → Prop where
  | empty : Matches .emptyR []
  | lit {c : Char} : Matches (.lit c) [c]
  | cls {items : List (Char × Char)} {a : Char} :
      inClass items a = true → Matches (.cls items) [a]
  | altL {a b : Regexp} {s : List Char} : Matches a s → Matches (.alt a b) s
  | altR {a b : Regexp} {s : List Char} : Matches b s → Matches (.alt a b) s
  | seqM {a b : Regexp} {s1 s2 : List Char} :
      Matches a s1 → Matches b s2 → Matches (.seq a b) (s1 ++ s2)
  | starNil {a : Regexp} : Matches (.star a) []
  | starCons {a : Regexp} {s1 s2 : List Char} :
      Matches a s1 → Matches (.star a) s2 → Matches (.star a) (s1 ++ s2)

/-! #### Regexp parser (models `regexp.MustCompile` on the fragment) -/

/-- Characters that stand for themselves outside a character class. -/
def isLiteralChar (c : Char) : Bool :=
  !(c == '|' || c == '(' || c == ')' || c == '[' || c == ']' || c == '*' ||
    c == '+' || c == '?' || c == '.' || c == '\\' || c == '^' || c == '$' ||
    c == '{' || c == '}')

/-- Characters usable inside a character class. -/
def isClassChar (c : Char) : Bool :=
  !(c == ']' || c == '\\' || c == '^')

/-- Parses the body of a character class up to the closing bracket,
accumulating ranges; a trailing `-` is kept literal as in Go. -/
def parseClsF : Nat → List Char → List (Char × Char) →
    Option (List (Char × Char) × List Char)
  | 0, _, _ => none
  | _ + 1, [], _ => none
  | f + 1, c :: cs, acc =>
    if c == ']' then
      if acc.isEmpty then none else some (acc.reverse, cs)
    else
      match cs with
      | '-' :: b :: rest =>
        if b == ']' then parseClsF f cs ((c, c) :: acc)
        else if isClassChar c && isClassChar b then
          parseClsF f rest ((c, b) :: acc)
        else none
      | _ =>
        if isClassChar c then parseClsF f cs ((c, c) :: acc) else none

/-- Recursive-descent modes: alternation, concatenation, repetition, atom. -/
inductive PMode where
  | altM
  | concatM
  | repM
  | atomM

/-- Recursive-descent parser for the regexp fragment, structural on fuel. -/
def parseF : Nat → PMode → List Char → Option (Regexp × List Char)
  | 0, _, _ => none
  | f + 1, .altM, cs =>
    match parseF f .concatM cs with
    | none => none
    | some (r, rest) =>
      match rest with
      | '|' :: rest2 =>
        match parseF f .altM rest2 with
        | none => none
        | some (r2, rest3) => some (.alt r r2, rest3)
      | _ => some (r, rest)
  | f + 1, .concatM, cs =>
    match cs with
    | [] => some (.emptyR, [])
    | c :: _ =>
      if c == '|' || c == ')' then some (.emptyR, cs)
      else
        match parseF f .repM cs with
        | none => none
        | some (r1, rest) =>
          match parseF f .concatM rest with
          | none => none
          | some (r2, rest2) => some (.seq r1 r2, rest2)
  | f + 1, .repM, cs =>
    match parseF f .atomM cs with
    | none => none
    | some (r, rest) =>
      match rest with
      | '*' :: rest2 => some (.star r, rest2)
      | '+' :: rest2 => some (.seq r (.star r), rest2)
      | '?' :: rest2 => some (.alt r .emptyR, rest2)
      | _ => some (r, rest)
  | f + 1, .atomM, cs =>
    match cs with
    | '(' :: rest =>
      match parseF f .altM rest with
      | some (r, ')' :: rest2) => some (r, rest2)
      | _ => none
    | '[' :: rest =>
      match parseClsF (rest.length + 1) rest [] with
      | some (items, rest2) => some (.cls items, rest2)
      | none => none
    | c :: rest => if isLiteralChar c then some (.lit c, rest) else none
    | [] => none

/-- Models `regexp.MustCompile`: `none` stands for the compile panic. -/
def compileRegex (pat : String) : Option Regexp :=
  match parseF (4 * pat.data.length + 8) .altM pat.data with
  | some (r, []) => some r
  | _ => none

/-! ### The trie (`TrieNode`) and registration (`AddRoute`) -/

/-- A panic value flowing to the top-level `recover`. -/
inductive PanicVal where
  | user (n : Nat)
  | badRegex (pat : String)
  | nilCall
deriving DecidableEq, Repr

/-- The handler stored at a terminal trie node: either a plain handler
given to `AddRoute` directly, or the closure built by `registerRoute`,
which captures the registering group instance `gid` around the user
handler `h`. -/
inductive RouteH where
  | plain (h : Nat)
  | wrapped (gid : Nat) (h : Nat)
deriving DecidableEq, Repr

/-- `TrieNode` from router.go.  The unused `Path` field is omitted;
`Level` and `FullPath` are the diagnostic attributes. -/
inductive TrieNode where
  | mk (children : List TrieNode) (handler : Option RouteH) (level : Nat)
       (pattern : String) (nodeType : NodeType) (method : String)
       (fullPath : String)

/-- Child list of a node. -/
def TrieNode.children : TrieNode → List TrieNode
  | .mk c _ _ _ _ _ _ => c

/-- Handler of a node. -/
def TrieNode.handler : TrieNode → Option RouteH
  | .mk _ h _ _ _ _ _ => h

/-- Level of a node. -/
def TrieNode.level : TrieNode → Nat
  | .mk _ _ lv _ _ _ _ => lv

/-- Pattern of a node. -/
def TrieNode.pattern : TrieNode → String
  | .mk _ _ _ p _ _ _ => p

/-- Node type of a node. -/
def TrieNode.nodeType : TrieNode → NodeType
  | .mk _ _ _ _ nt _ _ => nt

/-- Method of a node. -/
def TrieNode.method : TrieNode → String
  | .mk _ _ _ _ _ m _ => m

/-- Full path of a node. -/
def TrieNode.fullPath : TrieNode → String
  | .mk _ _ _ _ _ _ fp => fp

/-- Replaces the handler of a node. -/
def TrieNode.setHandler : TrieNode → Option RouteH → TrieNode
  | .mk c _ lv p nt m fp, h => .mk c h lv p nt m fp

/-- Replaces the child list of a node. -/
def TrieNode.setChildren : TrieNode → List TrieNode → TrieNode
  | .mk _ h lv p nt m fp, c => .mk c h lv p nt m fp

/-- The root node `NewRouter` creates. -/
def rootNode : TrieNode := .mk [] none 0 "" .Static "" ""

/-- The child lookup `AddRoute` performs at each level: the first child
whose pattern text, node type and method all match. -/
def addChildMatch (pattern : String) (nt : NodeType) (method : String)
    (c : TrieNode) : Bool :=
  c.pattern == pattern && decide (c.nodeType = nt) && c.method == method

/-- Splits a child list around the first child matching
`addChildMatch pattern nt method`, keeping the siblings on both sides. -/
def findChildSplit (pattern : String) (nt : NodeType) (method : String) :
    List TrieNode → Option (List TrieNode × TrieNode × List TrieNode)
  | [] => none
  | c :: cs =>
    if addChildMatch pattern nt method c then some ([], c, cs)
    else
      (findChildSplit pattern nt method cs).map
        (fun pcs => (c :: pcs.1, pcs.2.1, pcs.2.2))

/-- The loop body of `AddRoute` over the path segments: descend into the
first matching child, or append a fresh node (for a Regex segment the
stored pattern becomes `name ++ ":" ++ pat`); at the end, panic — modelled
as `Except.error` — if the node already has a handler, otherwise attach
the handler.  A failing `AddRoute` performs no observable trie mutation:
it panics only when every segment found an existing child. -/
def addParts (method : String) (h : RouteH) : List String → TrieNode →
    Except Unit TrieNode
  | [], curr =>
    match curr.handler with
    | some _ => .error ()
    | none => .ok (curr.setHandler (some h))
  | part :: rest, curr =>
    match getNodeTypeAndPattern part with
    | (nt, pattern, paramName) =>
      match findChildSplit pattern nt method curr.children with
      | some (pre, c, post) =>
        (addParts method h rest c).map
          (fun c2 => curr.setChildren (pre ++ c2 :: post))
      | none =>
        match addParts method h rest
          (.mk [] none (curr.level + 1)
            (if nt = NodeType.Regex then paramName ++ ":" ++ pattern
             else pattern)
            nt method (curr.fullPath ++ "/" ++ pattern)) with
        | .error e => .error e
        | .ok c2 => .ok (curr.setChildren (curr.children ++ [c2]))

/-- `AddRoute` from router.go. -/
def addRoute (root : TrieNode) (method path : String) (h : RouteH) :
    Except Unit TrieNode :=
  addParts method h (splitPath path) root

/-- A sequence of `AddRoute` calls, stopping at the first panic. -/
def addRoutes : List (String × String × RouteH) → TrieNode →
    Except Unit TrieNode
  | [], t => .ok t
  | (m, p, h) :: rest, t =>
    match addRoute t m p h with
    | .error e => .error e
    | .ok t2 => addRoutes rest t2

/-! ### Matching: the trie walk of `ServeHTTP` -/

/-- The route-parameter map, as an insertion-ordered association list with
Go map assignment semantics (`paramsInsert` overwrites an existing key). -/
abbrev Params := List (String × String)

/-- Go map assignment `params[k] = v`. -/
def paramsInsert (ps : Params) (k v : String) : Params :=
  if ps.any (fun p => p.1 == k) then
    ps.map (fun p => if p.1 == k then (k, v) else p)
  else ps ++ [(k, v)]

/-- The switch body of the walk's inner loop, for one child.  Static
requires method and literal equality; Param requires method equality only
and binds the segment; Regex splits the stored `name:regex` pattern,
requires method equality plus `FindString(part) == part` on the compiled
pattern (a malformed pattern makes `MustCompile` panic, the
`Except.error` case) and binds the match, which equals the segment.
`.ok none` means the child is not compatible and scanning continues. -/
def childAccept (method part : String) (params : Params) (c : TrieNode) :
    Except PanicVal (Option (TrieNode × Params)) :=
  match c.nodeType with
  | .Static =>
    if c.method == method && c.pattern == part then .ok (some (c, params))
    else .ok none
  | .Param =>
    if c.method == method then
      .ok (some (c, paramsInsert params c.pattern part))
    else .ok none
  | .Regex =>
    match splitN2 c.pattern ':' with
    | [name, rpat] =>
      if c.method == method then
        match compileRegex rpat with
        | none => .error (.badRegex rpat)
        | some re =>
          if goFindString re part.data == part.data then
            .ok (some (c, paramsInsert params name part))
          else .ok none
      else .ok none
    | _ => .ok none

/-- The inner child-scan of the walk: children are tried in storage order
and the first compatible one wins. -/
def selectChild (method part : String) (params : Params) :
    List TrieNode → Except PanicVal (Option (TrieNode × Params))
  | [] => .ok none
  | c :: cs =>
    match childAccept method part params c with
    | .error v => .error v
    | .ok none => selectChild method part params cs
    | .ok (some r) => .ok (some r)

/-- The walk over all request segments: `.ok none` is a failure at some
depth (the asset-fallback/not-found chain takes over), `.ok (some _)` is a
fully consumed path with the final node and the bound parameters. -/
def walkParts (method : String) : List String → TrieNode → Params →
    Except PanicVal (Option (TrieNode × Params))
  | [], curr, params => .ok (some (curr, params))
  | part :: rest, curr, params =>
    match selectChild method part params curr.children with
    | .error v => .error v
    | .ok none => .ok none
    | .ok (some (c, params2)) => walkParts method rest c params2

/-! ### Hooks, router instances and the dispatch pipeline

Hooks and handlers are opaque Go functions; the embedding identifies each
by a numeric id and a finite description of its observable behaviour.
A dispatch produces the list of invocation events in execution order. -/

/-- Behaviour of a before-hook on a request: continue (`true` in Go),
abort (`false`), or panic. -/
inductive BRes where
  | cont
  | abort
  | panics (v : PanicVal)
deriving DecidableEq, Repr

/-- A before-hook: id plus behaviour. -/
structure BHook where
  id : Nat
  res : BRes
deriving DecidableEq, Repr

/-- Behaviour of an after-hook or of a handler body: return or panic. -/
inductive ARes where
  | ok
  | panics (v : PanicVal)
deriving DecidableEq, Repr

/-- An after-hook: id plus behaviour. -/
structure AHook where
  id : Nat
  res : ARes
deriving DecidableEq, Repr

/-- Behaviour of the pluggable `Assets` handler: return a Boolean
(`true` = not handled, keep routing to not-found) or panic. -/
inductive AssetsB where
  | ret (b : Bool)
  | panics (v : PanicVal)
deriving DecidableEq, Repr

/-- One `router` struct value (the base router or a group view).  The
trie root lives in `World` because every instance shares it by
reference. -/
structure RouterI where
  beforeHooks : List BHook
  afterHooks : List AHook
  groupBefore : List BHook
  groupAfter : List AHook
  pfx : String
  notFound : ARes
  assets : Option AssetsB
  recovery : Bool
deriving DecidableEq, Repr

/-- The router `NewRouter` builds: empty hook lists, default not-found
handler, default assets handler (its filesystem probe is abstracted to
the Boolean it returns; with no matching file it returns `true`). -/
def defaultRouter : RouterI :=
  { beforeHooks := [], afterHooks := [], groupBefore := [], groupAfter := []
    pfx := "", notFound := .ok, assets := some (.ret true), recovery := false }

/-- The mutable state all views share: the trie and every router/group
instance created so far, indexed by position (`0` is the base router). -/
structure World where
  root : TrieNode
  instances : List RouterI

/-- `NewRouter` as a world. -/
def newWorld : World := { root := rootNode, instances := [defaultRouter] }

/-- Replaces instance `i` by `f` applied to it. -/
def updInst (w : World) (i : Nat) (f : RouterI → RouterI) : World :=
  { w with instances :=
      w.instances.mapIdx (fun j inst => if j = i then f inst else inst) }

/-- `Group(prefix)` on instance `parent`: a fresh instance sharing the
trie, with the concatenated prefix, the parent's global hook lists and
not-found handler copied by value, and — as in the Go struct literal —
no assets handler and no recovery handler of its own. -/
def World.group (w : World) (parent : Nat) (p : String) : World :=
  match w.instances[parent]? with
  | none => w
  | some par =>
    { w with instances := w.instances ++
        [{ beforeHooks := par.beforeHooks, afterHooks := par.afterHooks
           groupBefore := par.groupBefore, groupAfter := par.groupAfter
           pfx := par.pfx ++ p, notFound := par.notFound
           assets := none, recovery := false }] }

/-- `RegisterBeforeHook` on instance `i`. -/
def World.regBefore (w : World) (i : Nat) (h : BHook) : World :=
  updInst w i (fun inst => { inst with beforeHooks := inst.beforeHooks ++ [h] })

/-- `RegisterAfterHook` on instance `i`. -/
def World.regAfter (w : World) (i : Nat) (h : AHook) : World :=
  updInst w i (fun inst => { inst with afterHooks := inst.afterHooks ++ [h] })

/-- `RegisterGroupBeforeHook` on instance `i`. -/
def World.regGroupBefore (w : World) (i : Nat) (h : BHook) : World :=
  updInst w i (fun inst => { inst with groupBefore := inst.groupBefore ++ [h] })

/-- `RegisterGroupAfterHook` on instance `i`. -/
def World.regGroupAfter (w : World) (i : Nat) (h : AHook) : World :=
  updInst w i (fun inst => { inst with groupAfter := inst.groupAfter ++ [h] })

/-- `SetRecoveryHandler` on instance `i` (a custom recovery handler is
registered). -/
def World.setRecovery (w : World) (i : Nat) : World :=
  updInst w i (fun inst => { inst with recovery := true })

/-- `registerRoute` on instance `gid` (what `GET`/`POST`/… call): prefix
the path, lower-case it, and register a wrapper closure that captures the
group instance.  The duplicate-registration panic propagates as
`Except.error`. -/
def World.registerRoute (w : World) (gid : Nat) (method path : String)
    (h : Nat) : Except Unit World :=
  match w.instances[gid]? with
  | none => .ok w
  | some inst =>
    match addRoute w.root method (toLowerStr (inst.pfx ++ path))
        (.wrapped gid h) with
    | .error e => .error e
    | .ok t => .ok { w with root := t }

/-- `AddRoute` called directly on the shared trie with a plain handler. -/
def World.addRouteP (w : World) (method path : String) (h : Nat) :
    Except Unit World :=
  match addRoute w.root method path (.plain h) with
  | .error e => .error e
  | .ok t => .ok { w with root := t }

/-- Observable events of one dispatch, in execution order. -/
inductive Event where
  | bhook (id : Nat)
  | ahook (id : Nat)
  | handler (h : Nat) (params : Params)
  | assets
  | notFound
  | recovered (v : PanicVal)
  | err500
deriving DecidableEq, Repr

/-- Outcome of a before-hook chain. -/
inductive BOut where
  | done
  | aborted
  | panicked (v : PanicVal)
deriving DecidableEq, Repr

/-- Runs a before-hook list: each hook fires in order until one aborts or
panics. -/
def runBHooks : List BHook → List Event × BOut
  | [] => ([], .done)
  | h :: hs =>
    match h.res with
    | .cont =>
      match runBHooks hs with
      | (es, o) => (Event.bhook h.id :: es, o)
    | .abort => ([Event.bhook h.id], .aborted)
    | .panics v => ([Event.bhook h.id], .panicked v)

/-- Outcome of an after-hook chain or of the handler phase. -/
inductive AOut where
  | done
  | panicked (v : PanicVal)
deriving DecidableEq, Repr

/-- Runs an after-hook list: each hook fires in order until one panics. -/
def runAHooks : List AHook → List Event × AOut
  | [] => ([], .done)
  | h :: hs =>
    match h.res with
    | .ok =>
      match runAHooks hs with
      | (es, o) => (Event.ahook h.id :: es, o)
    | .panics v => ([Event.ahook h.id], .panicked v)

/-- Runs the handler stored at the matched node.  A wrapper closure from
`registerRoute` reads the captured group instance's current group-hook
lists from the world at dispatch time; a group-before hook returning
`false` returns from the closure only, so the top-level after-hook phase
still follows. -/
def runRouteH (w : World) (env : Nat → ARes) (params : Params) :
    RouteH → List Event × AOut
  | .plain h =>
    match env h with
    | .ok => ([Event.handler h params], .done)
    | .panics v => ([Event.handler h params], .panicked v)
  | .wrapped gid h =>
    match w.instances[gid]? with
    | none => ([], .done)
    | some g =>
      match runBHooks g.groupBefore with
      | (es1, .aborted) => (es1, .done)
      | (es1, .panicked v) => (es1, .panicked v)
      | (es1, .done) =>
        match env h with
        | .panics v => (es1 ++ [Event.handler h params], .panicked v)
        | .ok =>
          match runAHooks g.groupAfter with
          | (es2, o2) => (es1 ++ [Event.handler h params] ++ es2, o2)

/-- The handler phase of `ServeHTTP` lines 180–206 plus the after-hook
loops, given the walk's outcome.  A walk failure runs the assets probe
and, if it returns `true`, the not-found handler, then returns without
any after-hook; a fully consumed path runs the node's handler (or the
not-found handler if it has none) and then the serving instance's global
after-hooks followed by its group after-hooks. -/
def servePhase2 (w : World) (i : RouterI) (env : Nat → ARes)
    (walkRes : Option (TrieNode × Params)) : List Event × Option PanicVal :=
  match walkRes with
  | none =>
    match i.assets with
    | none => ([], some .nilCall)
    | some (.panics v) => ([Event.assets], some v)
    | some (.ret false) => ([Event.assets], none)
    | some (.ret true) =>
      match i.notFound with
      | .ok => ([Event.assets, Event.notFound], none)
      | .panics v => ([Event.assets, Event.notFound], some v)
  | some (node, params) =>
    match
      (match node.handler with
       | some rh => runRouteH w env params rh
       | none =>
         match i.notFound with
         | .ok => ([Event.notFound], AOut.done)
         | .panics v => ([Event.notFound], AOut.panicked v)) with
    | (es3, .panicked v) => (es3, some v)
    | (es3, .done) =>
      match runAHooks i.afterHooks with
      | (es4, .panicked v) => (es3 ++ es4, some v)
      | (es4, .done) =>
        match runAHooks i.groupAfter with
        | (es5, o5) =>
          (es3 ++ es4 ++ es5,
           match o5 with
           | .panicked v => some v
           | .done => none)

/-- The body of `ServeHTTP` under the `recover` guard: lower-case and
split the path, run the serving instance's global then group before-hooks
with early return on abort, walk the trie, and hand over to
`servePhase2`.  On a successful walk ServeHTTP also stores the bound
parameters in the shared `router.Param` field and in the request
context; both are observed here only through the parameter map carried
by the handler invocation event. -/
def serveCore (w : World) (i : RouterI) (env : Nat → ARes)
    (method path : String) : List Event × Option PanicVal :=
  match runBHooks i.beforeHooks with
  | (es1, .aborted) => (es1, none)
  | (es1, .panicked v) => (es1, some v)
  | (es1, .done) =>
    match runBHooks i.groupBefore with
    | (es2, .aborted) => (es1 ++ es2, none)
    | (es2, .panicked v) => (es1 ++ es2, some v)
    | (es2, .done) =>
      match walkParts method (splitPath (toLowerStr path)) w.root [] with
      | .error v => (es1 ++ es2, some v)
      | .ok wres =>
        match servePhase2 w i env wres with
        | (es3, p) => (es1 ++ es2 ++ es3, p)

/-- `ServeHTTP` on serving instance `iid`: the deferred `recover` turns a
panic anywhere in the body into exactly one recovery event — the custom
recovery handler with the raw panic value when one is registered, the
fixed 500 response otherwise. -/
def serve (w : World) (iid : Nat) (env : Nat → ARes) (method path : String) :
    List Event :=
  match w.instances[iid]? with
  | none => []
  | some i =>
    match serveCore w i env method path with
    | (es, none) => es
    | (es, some v) =>
      es ++ [if i.recovery then Event.recovered v else Event.err500]

/-- Handler environment in which every user handler returns normally. -/
def envOk : Nat → ARes := fun _ => .ok

/-! ### Specification-side notions used by the theorems -/

/-- Did a registration sequence succeed (no duplicate-registration panic)? -/
def isOkE {ε α : Type} : Except ε α → Bool
  | .ok _ => true
  | .error _ => false

/-- The (kind, pattern text, method) triple of a node. -/
def tripleOf (c : TrieNode) : NodeType × String × String :=
  (c.nodeType, c.pattern, c.method)

/-- Do two siblings agree on kind, pattern text and method? -/
def tripleEq (a b : TrieNode) : Bool :=
  decide (a.nodeType = b.nodeType) && a.pattern == b.pattern &&
    a.method == b.method

/-- No two siblings of the list share a triple whose kind is Static or
Param (Regex siblings are exempt: registration can duplicate them). -/
def pairwiseNoDup : List TrieNode → Bool
  | [] => true
  | c :: rest =>
    (decide (c.nodeType = NodeType.Regex) ||
      rest.all (fun d => !tripleEq c d)) && pairwiseNoDup rest

/-- The sibling-uniqueness invariant down to depth `d`. -/
def noDupUpTo : Nat → TrieNode → Bool
  | 0, _ => true
  | d + 1, t => pairwiseNoDup t.children && t.children.all (noDupUpTo d)

/-- Every node down to depth `d` is a Static node. -/
def allStaticUpTo : Nat → TrieNode → Bool
  | 0, _ => true
  | d + 1, t =>
    t.children.all
      (fun c => decide (c.nodeType = NodeType.Static) && allStaticUpTo d c)

/-- A trie all of whose nodes are Static. -/
def AllStatic (t : TrieNode) : Prop := ∀ d, allStaticUpTo d t = true

/-- Reference lookup in a static trie: descend into the child whose
method and literal match the segment. -/
def staticWalk (m : String) : List String → TrieNode → Option TrieNode
  | [], t => some t
  | part :: rest, t =>
    match t.children.find? (fun c => c.method == m && c.pattern == part) with
    | none => none
    | some c => staticWalk m rest c

/-- The handler a static trie associates to (method, segments). -/
def hAt (t : TrieNode) (m : String) (parts : List String) : Option RouteH :=
  (staticWalk m parts t).bind TrieNode.handler

/-- Can the regexp match the empty string? -/
def nullable : Regexp → Bool
  | .emptyR => true
  | .lit _ => false
  | .cls _ => false
  | .alt a b => nullable a || nullable b
  | .seq a b => nullable a && nullable b
  | .star _ => true

/-- A base-router world whose trie holds the given registrations (the
world is irrelevant when registration panics). -/
def mkWorld1 (regs : List (String × String × RouteH)) : World :=
  match addRoutes regs rootNode with
  | .ok t => { root := t, instances := [defaultRouter] }
  | .error _ => newWorld

/-- The compiled form of the pattern `[0-9]+`. -/
def re09val : Regexp :=
  .seq (.seq (.cls [('0', '9')]) (.star (.cls [('0', '9')]))) .emptyR

/-- The compiled form of the pattern `a|ab`. -/
def reABval : Regexp :=
  .alt (.seq (.lit 'a') .emptyR)
    (.seq (.lit 'a') (.seq (.lit 'b') .emptyR))

/-- Scenario for the group-hook claims: create a group of the base
router, register a route through it, and only then add a group
before-hook `b`, a group after-hook `a` (both on the group) and a global
before-hook `c` (on the base router). -/
def c6World (b : BHook) (a : AHook) (c : BHook) : World :=
  match (newWorld.group 0 "/g").registerRoute 1 "GET" "/x" 7 with
  | .ok w => ((w.regGroupBefore 1 b).regGroupAfter 1 a).regBefore 0 c
  | .error _ => newWorld

/-! ## Theorems -/

/-- A before-hook list of continuing hooks runs every hook in order. -/
theorem runBHooks_cont (l : List BHook) (hl : ∀ h ∈ l, h.res = BRes.cont) :
    runBHooks l = (l.map (fun h => Event.bhook h.id), BOut.done) := by
  induction l with
  | nil => rfl
  | cons h hs ih =>
    have hh : h.res = BRes.cont := hl h (by simp)
    have ih2 := ih (fun x hx => hl x (by simp [hx]))
    simp [runBHooks, hh, ih2]

/-- The first aborting before-hook stops the chain right after itself. -/
theorem runBHooks_abort (l1 : List BHook) (b : BHook) (l2 : List BHook)
    (hl : ∀ h ∈ l1, h.res = BRes.cont) (hb : b.res = BRes.abort) :
    runBHooks (l1 ++ b :: l2) =
      (l1.map (fun h => Event.bhook h.id) ++ [Event.bhook b.id],
       BOut.aborted) := by
  induction l1 with
  | nil => simp [runBHooks, hb]
  | cons h hs ih =>
    have hh : h.res = BRes.cont := hl h (by simp)
    have ih2 := ih (fun x hx => hl x (by simp [hx]))
    simp [runBHooks, hh, ih2]

/-- An after-hook list of returning hooks runs every hook in order. -/
theorem runAHooks_ok (l : List AHook) (hl : ∀ h ∈ l, h.res = ARes.ok) :
    runAHooks l = (l.map (fun h => Event.ahook h.id), AOut.done) := by
  induction l with
  | nil => rfl
  | cons h hs ih =>
    have hh : h.res = ARes.ok := hl h (by simp)
    have ih2 := ih (fun x hx => hl x (by simp [hx]))
    simp [runAHooks, hh, ih2]

/-- The first panicking after-hook stops the chain right after itself. -/
theorem runAHooks_panic (l1 : List AHook) (a : AHook) (l2 : List AHook)
    (v : PanicVal) (hl : ∀ h ∈ l1, h.res = ARes.ok)
    (ha : a.res = ARes.panics v) :
    runAHooks (l1 ++ a :: l2) =
      (l1.map (fun h => Event.ahook h.id) ++ [Event.ahook a.id],
       AOut.panicked v) := by
  induction l1 with
  | nil => simp [runAHooks, ha]
  | cons h hs ih =>
    have hh : h.res = ARes.ok := hl h (by simp)
    have ih2 := ih (fun x hx => hl x (by simp [hx]))
    simp [runAHooks, hh, ih2]

/-- Unfolds `serve` once the serving instance is known. -/
theorem serve_eq_of_inst (w : World) (iid : Nat) (i : RouterI)
    (env : Nat → ARes) (m p : String) (es : List Event)
    (pv : Option PanicVal) (hi : w.instances[iid]? = some i)
    (hc : serveCore w i env m p = (es, pv)) :
    serve w iid env m p =
      (match pv with
       | none => es
       | some v =>
         es ++ [if i.recovery then Event.recovered v else Event.err500]) := by
  unfold serve
  simp only [hi, hc]
  cases pv <;> rfl

/-- Unfolds `serveCore` when both before-hook phases complete. -/
theorem serveCore_done (w : World) (i : RouterI) (env : Nat → ARes)
    (m p : String) (es1 es2 es3 : List Event)
    (wres : Option (TrieNode × Params)) (pv : Option PanicVal)
    (hb : runBHooks i.beforeHooks = (es1, BOut.done))
    (hg : runBHooks i.groupBefore = (es2, BOut.done))
    (hw : walkParts m (splitPath (toLowerStr p)) w.root [] = .ok wres)
    (hp : servePhase2 w i env wres = (es3, pv)) :
    serveCore w i env m p = (es1 ++ es2 ++ es3, pv) := by
  unfold serveCore
  simp only [hb, hg, hw, hp]

/-- Unfolds `serveCore` when a global before-hook aborts. -/
theorem serveCore_abort (w : World) (i : RouterI) (env : Nat → ARes)
    (m p : String) (es1 : List Event)
    (hb : runBHooks i.beforeHooks = (es1, BOut.aborted)) :
    serveCore w i env m p = (es1, none) := by
  unfold serveCore
  rw [hb]

/-- C9.  When a global before-hook returns the abort signal, every
before-hook registered before it has already run, in order, and nothing
else runs: no later before-hook, no group before-hook, no handler, no
asset-fallback or not-found handler, and no after-hook — the dispatch
trace consists exactly of the hooks up to and including the aborting
one. -/
theorem c9_before_abort (w : World) (iid : Nat) (i : RouterI)
    (env : Nat → ARes) (m p : String) (l1 : List BHook) (b : BHook)
    (l2 : List BHook) (hi : w.instances[iid]? = some i)
    (hsplit : i.beforeHooks = l1 ++ b :: l2)
    (hl : ∀ h ∈ l1, h.res = BRes.cont) (hb : b.res = BRes.abort) :
    serve w iid env m p =
      l1.map (fun h => Event.bhook h.id) ++ [Event.bhook b.id] := by
  have habort : runBHooks i.beforeHooks =
      (l1.map (fun h => Event.bhook h.id) ++ [Event.bhook b.id],
       BOut.aborted) := by
    rw [hsplit]; exact runBHooks_abort l1 b l2 hl hb
  exact serve_eq_of_inst w iid i env m p _ none hi
    (serveCore_abort w i env m p _ habort)

/-- Witness for C9: in a base router with before-hooks 21 (continue),
22 (abort), 23 (continue) and route GET /a, a request runs exactly hooks
21 and 22. -/
theorem c9_witness :
    serve (mkWorld1 [("GET", "/a", .plain 1)]
            |>.regBefore 0 ⟨21, .cont⟩ |>.regBefore 0 ⟨22, .abort⟩
            |>.regBefore 0 ⟨23, .cont⟩) 0 envOk "GET" "/a" =
      [Event.bhook 21, Event.bhook 22] := by
  exact c9_before_abort _ 0
    { defaultRouter with
        beforeHooks := [⟨21, .cont⟩, ⟨22, .abort⟩, ⟨23, .cont⟩] }
    envOk "GET" "/a" [⟨21, .cont⟩] ⟨22, .abort⟩ [⟨23, .cont⟩]
    (by rfl) (by rfl) (by decide) (by rfl)

/-- Trimming absorbs a leading slash. -/
theorem trimSlashes_cons_slash (l : List Char) :
    trimSlashes ('/' :: l) = trimSlashes l := by
  simp [trimSlashes]

/-- Trimming absorbs a trailing slash. -/
theorem trimSlashes_append_slash (l : List Char) :
    trimSlashes (l ++ ['/']) = trimSlashes l := by
  unfold trimSlashes
  rw [List.dropWhile_append]
  by_cases h : (l.dropWhile (· == '/')).isEmpty
  · rw [List.isEmpty_iff] at h
    simp [h]
  · simp [h, List.reverse_append]

/-- Splitting ignores a leading slash. -/
theorem splitPath_cons_slash (p : String) :
    splitPath ("/" ++ p) = splitPath p := by
  unfold splitPath
  rw [String.data_append]
  exact congrArg (fun l => splitOnSlash l []) (trimSlashes_cons_slash p.data)

/-- Splitting ignores a trailing slash. -/
theorem splitPath_append_slash (p : String) :
    splitPath (p ++ "/") = splitPath p := by
  unfold splitPath
  rw [String.data_append]
  exact congrArg (fun l => splitOnSlash l []) (trimSlashes_append_slash p.data)

/-- Case folding maps a leading slash to itself. -/
theorem toLowerStr_cons_slash (p : String) :
    toLowerStr ("/" ++ p) = "/" ++ toLowerStr p := by
  unfold toLowerStr
  apply String.ext
  simp [String.data_append]
  rfl

/-- Case folding maps a trailing slash to itself. -/
theorem toLowerStr_append_slash (p : String) :
    toLowerStr (p ++ "/") = toLowerStr p ++ "/" := by
  unfold toLowerStr
  apply String.ext
  simp [String.data_append]
  rfl

/-- A dispatch depends on the request path only through the lower-cased
split segments. -/
theorem serve_path_congr (w : World) (iid : Nat) (env : Nat → ARes)
    (m p1 p2 : String)
    (h : splitPath (toLowerStr p1) = splitPath (toLowerStr p2)) :
    serve w iid env m p1 = serve w iid env m p2 := by
  simp only [serve, serveCore, h]

/-- C10.  Trie matching is invariant under leading and trailing slashes:
`splitPath` strips them before splitting, so the split segments, the full
dispatch trace, and the trie produced by a registration are identical for
`path`, `"/" ++ path` and `path ++ "/"` — e.g. for "/user/alice",
"user/alice" and "/user/alice/", and registering "/x" and "x/" builds the
same trie. -/
theorem c10_slash_invariance :
    (∀ p : String,
      splitPath ("/" ++ p) = splitPath p ∧
      splitPath (p ++ "/") = splitPath p) ∧
    (∀ (w : World) (iid : Nat) (env : Nat → ARes) (m p : String),
      serve w iid env m ("/" ++ p) = serve w iid env m p ∧
      serve w iid env m (p ++ "/") = serve w iid env m p) ∧
    (∀ (t : TrieNode) (m p : String) (h : RouteH),
      addRoute t m ("/" ++ p) h = addRoute t m p h ∧
      addRoute t m (p ++ "/") h = addRoute t m p h) := by
  refine ⟨fun p => ⟨splitPath_cons_slash p, splitPath_append_slash p⟩,
    fun w iid env m p => ⟨?_, ?_⟩, fun t m p h => ⟨?_, ?_⟩⟩
  · exact serve_path_congr w iid env m _ p
      (by rw [toLowerStr_cons_slash, splitPath_cons_slash])
  · exact serve_path_congr w iid env m _ p
      (by rw [toLowerStr_append_slash, splitPath_append_slash])
  · unfold addRoute
    rw [splitPath_cons_slash]
  · unfold addRoute
    rw [splitPath_append_slash]

/-- A regexp that matches the empty string is nullable. -/
theorem matches_nil_nullable {r : Regexp} {s : List Char}
    (h : Matches r s) (hs : s = []) : nullable r = true := by
  induction h with
  | empty => rfl
  | lit => simp at hs
  | cls _ => simp at hs
  | altL _ ih => simp [nullable, ih hs]
  | altR _ ih => simp [nullable, ih hs]
  | seqM _ _ ih1 ih2 =>
    rcases List.append_eq_nil.mp hs with ⟨h1, h2⟩
    simp [nullable, ih1 h1, ih2 h2]
  | starNil => rfl
  | starCons _ _ _ _ => rfl

/-- Counterexample to C1 as stated.  The registrations GET `/:x` and
GET `/a` are non-conflicting (no two share the same (method, path); the
sequence registers without a panic), and the request GET `/a` has method
and path exactly equal to the second registration — yet dispatch invokes
the first registration's handler (the Param sibling registered earlier
shadows the exact Static match) and never the second one's. -/
theorem c1_counterexample :
    isOkE (addRoutes [("GET", "/:x", .plain 1), ("GET", "/a", .plain 2)]
      rootNode) = true ∧
    serve (mkWorld1 [("GET", "/:x", .plain 1), ("GET", "/a", .plain 2)])
        0 envOk "GET" "/a" =
      [Event.handler 1 [("x", "a")]] := by
  exact ⟨rfl, rfl⟩

/-- Counterexample to C2 as stated.  A Regex sibling (`{id:[0-9]+}`,
POST) is registered before a Static sibling whose literal is `abc` for
the same method, and the request POST `/abc` carries exactly that
segment — yet dispatch descends into the Static sibling, because the
Regex sibling is compatible only with segments its pattern accepts. -/
theorem c2_counterexample :
    isOkE (addRoutes [("POST", "/{id:[0-9]+}", .plain 1),
      ("POST", "/abc", .plain 2)] rootNode) = true ∧
    serve (mkWorld1 [("POST", "/{id:[0-9]+}", .plain 1),
        ("POST", "/abc", .plain 2)]) 0 envOk "POST" "/abc" =
      [Event.handler 2 []] := by
  exact ⟨rfl, rfl⟩

/-- Counterexample to C3 as stated.  Registering the same
(POST, `/product/{id:[0-9]+}`) twice does NOT fail: the second
registration returns normally (the `AddRoute` child lookup compares the
raw regex text against the stored `name:regex` pattern, never matches,
and silently appends a fresh duplicate branch). -/
theorem c3_counterexample :
    isOkE (addRoutes [("POST", "/product/{id:[0-9]+}", .plain 1),
      ("POST", "/product/{id:[0-9]+}", .plain 2)] rootNode) = true := by
  exact rfl

/-- Counterexample to C4 as stated.  After registering
(POST, `/product/{id:[0-9]+}`) twice — a sequence of `AddRoute` calls
that completes without a panic — the `product` node has two distinct
children agreeing on all of kind, pattern text and method. -/
theorem c4_counterexample :
    isOkE (addRoutes [("POST", "/product/{id:[0-9]+}", .plain 1),
      ("POST", "/product/{id:[0-9]+}", .plain 2)] rootNode) = true ∧
    (match addRoutes [("POST", "/product/{id:[0-9]+}", .plain 1),
        ("POST", "/product/{id:[0-9]+}", .plain 2)] rootNode with
     | .ok t => (t.children.headD rootNode).children.map tripleOf
     | .error _ => []) =
      [(NodeType.Regex, "id:[0-9]+", "POST"),
       (NodeType.Regex, "id:[0-9]+", "POST")] := by
  exact ⟨rfl, rfl⟩

/-- Counterexample to C5 as stated.  First, with POST `/x/{y:a|ab}`
registered, the segment `ab` is an anchored whole-segment match of the
pattern `a|ab`, yet the request POST `/x/ab` does not match the route
(Go's `FindString` is leftmost-first and returns `a`, which differs from
the segment).  Second, with POST `/a/{id:[0-9]+}/b` registered, the
request POST `/a//b` carries an empty middle segment that `[0-9]+` does
not whole-match, yet the route matches with `id` bound to the empty
string (`FindString` returns the empty string for "no match", which
compares equal to the empty segment). -/
theorem c5_counterexample :
    compileRegex "a|ab" = some reABval ∧
    Matches reABval ['a', 'b'] ∧
    serve (mkWorld1 [("POST", "/x/{y:a|ab}", .plain 3)]) 0 envOk
      "POST" "/x/ab" = [Event.assets, Event.notFound] ∧
    compileRegex "[0-9]+" = some re09val ∧
    ¬ Matches re09val [] ∧
    serve (mkWorld1 [("POST", "/a/{id:[0-9]+}/b", .plain 4)]) 0 envOk
      "POST" "/a//b" = [Event.handler 4 [("id", "")]] := by
  refine ⟨rfl, ?_, rfl, rfl, ?_, rfl⟩
  · exact Matches.altR
      (Matches.seqM Matches.lit (Matches.seqM Matches.lit Matches.empty))
  · intro h
    exact absurd (matches_nil_nullable h rfl) (by decide)

/-- Counterexample to C6 as stated.  After a route is registered through
a group, a before-hook (id 6) and an after-hook (id 9) added to the
group, and a global before-hook (id 8) added to the parent router, all
run for that route on the next dispatch — the wrapper reads the group's
hook lists at dispatch time, and the parent's own hook lists are read by
the serving instance at dispatch time, so neither list is a
registration-time snapshot. -/
theorem c6_counterexample :
    serve (c6World ⟨6, .cont⟩ ⟨9, .ok⟩ ⟨8, .cont⟩) 0 envOk "GET" "/g/x" =
      [Event.bhook 8, Event.bhook 6, Event.handler 7 [], Event.ahook 9] := by
  exact rfl

/-- Counterexample to C7 as stated.  With GET `/a/b` registered and an
after-hook of each scope installed, a request whose trie walk fails at
depth 2 (GET `/a/zzz`) falls through to the asset-fallback/not-found
chain and runs NO after-hook; and when the walk consumes the full path
but finds no handler (GET `/a`), the not-found handler runs followed by
the GLOBAL after-hook (id 11) before the group after-hook (id 12) — the
opposite of the claimed order. -/
theorem c7_counterexample :
    serve ((mkWorld1 [("GET", "/a/b", .plain 1)]).regAfter 0 ⟨11, .ok⟩
        |>.regGroupAfter 0 ⟨12, .ok⟩) 0 envOk "GET" "/a/zzz" =
      [Event.assets, Event.notFound] ∧
    serve ((mkWorld1 [("GET", "/a/b", .plain 1)]).regAfter 0 ⟨11, .ok⟩
        |>.regGroupAfter 0 ⟨12, .ok⟩) 0 envOk "GET" "/a" =
      [Event.notFound, Event.ahook 11, Event.ahook 12] := by
  exact ⟨rfl, rfl⟩

/-- Counterexample to C8 as stated.  A panic raised in after-hook 12 is
caught once by the top-level guard (the fixed 500 response follows), but
the after-hooks of the request were not "skipped entirely": after-hook
11 had already run, and hook 12 itself was invoked. -/
theorem c8_counterexample :
    serve ((mkWorld1 [("GET", "/a", .plain 1)]).regAfter 0 ⟨11, .ok⟩
        |>.regAfter 0 ⟨12, .panics (.user 9)⟩ |>.regAfter 0 ⟨13, .ok⟩
        |>.regGroupAfter 0 ⟨14, .ok⟩) 0 envOk "GET" "/a" =
      [Event.handler 1 [], Event.ahook 11, Event.ahook 12, Event.err500] := by
  exact rfl

/-- Phase 2 on a failed walk with the default-style assets probe
(returns `true`) and a returning not-found handler. -/
theorem servePhase2_walkfail (w : World) (i : RouterI) (env : Nat → ARes)
    (ha : i.assets = some (.ret true)) (hn : i.notFound = ARes.ok) :
    servePhase2 w i env none = ([Event.assets, Event.notFound], none) := by
  unfold servePhase2
  simp only [ha, hn]

/-- Phase 2 on a consumed path whose final node has no handler. -/
theorem servePhase2_nohandler (w : World) (i : RouterI) (env : Nat → ARes)
    (node : TrieNode) (ps : Params) (es4 es5 : List Event)
    (hnd : node.handler = none) (hn : i.notFound = ARes.ok)
    (h4 : runAHooks i.afterHooks = (es4, AOut.done))
    (h5 : runAHooks i.groupAfter = (es5, AOut.done)) :
    servePhase2 w i env (some (node, ps)) =
      ([Event.notFound] ++ es4 ++ es5, none) := by
  unfold servePhase2
  simp only [hnd, hn, h4, h5]

/-- Phase 2 on a matched plain handler that returns normally. -/
theorem servePhase2_plain_ok (w : World) (i : RouterI) (env : Nat → ARes)
    (node : TrieNode) (ps : Params) (h : Nat) (es4 es5 : List Event)
    (hnd : node.handler = some (.plain h)) (he : env h = ARes.ok)
    (h4 : runAHooks i.afterHooks = (es4, AOut.done))
    (h5 : runAHooks i.groupAfter = (es5, AOut.done)) :
    servePhase2 w i env (some (node, ps)) =
      ([Event.handler h ps] ++ es4 ++ es5, none) := by
  unfold servePhase2 runRouteH
  simp only [hnd, he, h4, h5]

/-- Phase 2 on a matched plain handler that panics. -/
theorem servePhase2_plain_panic (w : World) (i : RouterI) (env : Nat → ARes)
    (node : TrieNode) (ps : Params) (h : Nat) (v : PanicVal)
    (hnd : node.handler = some (.plain h)) (he : env h = ARes.panics v) :
    servePhase2 w i env (some (node, ps)) =
      ([Event.handler h ps], some v) := by
  unfold servePhase2 runRouteH
  simp only [hnd, he]

/-- Phase 2 when a global after-hook panics after a successful plain
handler. -/
theorem servePhase2_after_panic (w : World) (i : RouterI) (env : Nat → ARes)
    (node : TrieNode) (ps : Params) (h : Nat) (v : PanicVal)
    (es4 : List Event) (hnd : node.handler = some (.plain h))
    (he : env h = ARes.ok)
    (h4 : runAHooks i.afterHooks = (es4, AOut.panicked v)) :
    servePhase2 w i env (some (node, ps)) =
      ([Event.handler h ps] ++ es4, some v) := by
  unfold servePhase2 runRouteH
  simp only [hnd, he, h4]

/-- C7, amended.  For a request in which no before-hook aborts and no
panic occurs: (1) when the trie walk fails at some depth, the
asset-fallback and not-found handlers run and ServeHTTP returns at once —
no after-hook of either scope runs; (2) when the walk consumes every
segment but the final node has no handler, the not-found handler runs in
the handler phase and is followed by the serving instance's global
after-hooks and then its group after-hooks, each in registration
order. -/
theorem c7_after_hooks :
    (∀ (w : World) (iid : Nat) (i : RouterI) (env : Nat → ARes)
       (m p : String),
      w.instances[iid]? = some i →
      (∀ h ∈ i.beforeHooks, h.res = BRes.cont) →
      (∀ h ∈ i.groupBefore, h.res = BRes.cont) →
      walkParts m (splitPath (toLowerStr p)) w.root [] = .ok none →
      i.assets = some (.ret true) → i.notFound = ARes.ok →
      serve w iid env m p =
        (i.beforeHooks ++ i.groupBefore).map (fun h => Event.bhook h.id) ++
          [Event.assets, Event.notFound]) ∧
    (∀ (w : World) (iid : Nat) (i : RouterI) (env : Nat → ARes)
       (m p : String) (node : TrieNode) (ps : Params),
      w.instances[iid]? = some i →
      (∀ h ∈ i.beforeHooks, h.res = BRes.cont) →
      (∀ h ∈ i.groupBefore, h.res = BRes.cont) →
      walkParts m (splitPath (toLowerStr p)) w.root [] =
        .ok (some (node, ps)) →
      node.handler = none → i.notFound = ARes.ok →
      (∀ h ∈ i.afterHooks, h.res = ARes.ok) →
      (∀ h ∈ i.groupAfter, h.res = ARes.ok) →
      serve w iid env m p =
        (i.beforeHooks ++ i.groupBefore).map (fun h => Event.bhook h.id) ++
          [Event.notFound] ++
          i.afterHooks.map (fun h => Event.ahook h.id) ++
          i.groupAfter.map (fun h => Event.ahook h.id)) := by
  constructor
  · intro w iid i env m p hi hbc hgc hw ha hn
    have hc := serveCore_done w i env m p _ _ _ none none
      (runBHooks_cont _ hbc) (runBHooks_cont _ hgc) hw
      (servePhase2_walkfail w i env ha hn)
    have hs := serve_eq_of_inst w iid i env m p _ none hi hc
    rw [hs]
    simp [List.append_assoc]
  · intro w iid i env m p node ps hi hbc hgc hw hnd hn h4 h5
    have hc := serveCore_done w i env m p _ _ _ (some (node, ps)) none
      (runBHooks_cont _ hbc) (runBHooks_cont _ hgc) hw
      (servePhase2_nohandler w i env node ps _ _ hnd hn
        (runAHooks_ok _ h4) (runAHooks_ok _ h5))
    have hs := serve_eq_of_inst w iid i env m p _ none hi hc
    rw [hs]
    simp [List.append_assoc]

/-- Witness for C7: with GET `/a/b` registered and one after-hook of each
scope, a GET `/a/zzz` request (walk failure) yields exactly the
assets/not-found trace with no after-hook event. -/
theorem c7_witness :
    serve ((mkWorld1 [("GET", "/a/b", .plain 1)]).regAfter 0 ⟨31, .ok⟩
        |>.regGroupAfter 0 ⟨32, .ok⟩) 0 envOk "GET" "/a/zzz" =
      [Event.assets, Event.notFound] := by
  exact c7_after_hooks.1 _ 0
    { defaultRouter with afterHooks := [⟨31, .ok⟩], groupAfter := [⟨32, .ok⟩] }
    envOk "GET" "/a/zzz" rfl (by decide) (by decide) rfl rfl rfl

/-- C8, amended.  A panic in the dispatch chain is caught exactly once by
the top-level guard, which emits a single recovery event — the custom
recovery handler applied to the raw panic value when one is registered,
the fixed 500 response otherwise — and the dispatch still returns a
trace (the process does not crash).  (1) For a panic in the matched
handler, no after-hook of either scope runs.  (2) For a panic raised in
a global after-hook, the after-hooks that had already run stand, the
panicking hook's invocation is the last hook event, and the remaining
global and group after-hooks are skipped. -/
theorem c8_panic_recovery :
    (∀ (w : World) (iid : Nat) (i : RouterI) (env : Nat → ARes)
       (m p : String) (node : TrieNode) (ps : Params) (h : Nat)
       (v : PanicVal),
      w.instances[iid]? = some i →
      (∀ x ∈ i.beforeHooks, x.res = BRes.cont) →
      (∀ x ∈ i.groupBefore, x.res = BRes.cont) →
      walkParts m (splitPath (toLowerStr p)) w.root [] =
        .ok (some (node, ps)) →
      node.handler = some (.plain h) → env h = ARes.panics v →
      serve w iid env m p =
        (i.beforeHooks ++ i.groupBefore).map (fun x => Event.bhook x.id) ++
          [Event.handler h ps] ++
          [if i.recovery then Event.recovered v else Event.err500]) ∧
    (∀ (w : World) (iid : Nat) (i : RouterI) (env : Nat → ARes)
       (m p : String) (node : TrieNode) (ps : Params) (h : Nat)
       (v : PanicVal) (l1 : List AHook) (a : AHook) (l2 : List AHook),
      w.instances[iid]? = some i →
      (∀ x ∈ i.beforeHooks, x.res = BRes.cont) →
      (∀ x ∈ i.groupBefore, x.res = BRes.cont) →
      walkParts m (splitPath (toLowerStr p)) w.root [] =
        .ok (some (node, ps)) →
      node.handler = some (.plain h) → env h = ARes.ok →
      i.afterHooks = l1 ++ a :: l2 → (∀ x ∈ l1, x.res = ARes.ok) →
      a.res = ARes.panics v →
      serve w iid env m p =
        (i.beforeHooks ++ i.groupBefore).map (fun x => Event.bhook x.id) ++
          [Event.handler h ps] ++
          l1.map (fun x => Event.ahook x.id) ++ [Event.ahook a.id] ++
          [if i.recovery then Event.recovered v else Event.err500]) := by
  constructor
  · intro w iid i env m p node ps h v hi hbc hgc hw hnd he
    have hc := serveCore_done w i env m p _ _ _ (some (node, ps)) (some v)
      (runBHooks_cont _ hbc) (runBHooks_cont _ hgc) hw
      (servePhase2_plain_panic w i env node ps h v hnd he)
    have hs := serve_eq_of_inst w iid i env m p _ (some v) hi hc
    rw [hs]
    simp [List.append_assoc]
  · intro w iid i env m p node ps h v l1 a l2 hi hbc hgc hw hnd he hsp hl1 hav
    have h4 : runAHooks i.afterHooks =
        (l1.map (fun x => Event.ahook x.id) ++ [Event.ahook a.id],
         AOut.panicked v) := by
      rw [hsp]; exact runAHooks_panic l1 a l2 v hl1 hav
    have hc := serveCore_done w i env m p _ _ _ (some (node, ps)) (some v)
      (runBHooks_cont _ hbc) (runBHooks_cont _ hgc) hw
      (servePhase2_after_panic w i env node ps h v _ hnd he h4)
    have hs := serve_eq_of_inst w iid i env m p _ (some v) hi hc
    rw [hs]
    simp [List.append_assoc]

/-- Witness for C8: with GET `/a` registered, a custom recovery handler
installed and a handler that panics with value 3, the dispatch trace is
the handler invocation followed by exactly one recovery event carrying
the raw panic value. -/
theorem c8_witness :
    serve ((mkWorld1 [("GET", "/a", .plain 1)]).setRecovery 0) 0
        (fun _ => ARes.panics (.user 3)) "GET" "/a" =
      [Event.handler 1 [], Event.recovered (.user 3)] := by
  exact c8_panic_recovery.1 _ 0 { defaultRouter with recovery := true }
    (fun _ => ARes.panics (.user 3)) "GET" "/a" _ [] 1 (.user 3)
    rfl (by decide) (by decide) rfl rfl rfl

/-- C6, amended.  The wrapper that `registerRoute` installs binds the
group instance, not a snapshot of its hook lists: at dispatch it runs
the registering group's before/after hook lists as they stand at
dispatch time.  Hence a before-hook `b` and an after-hook `a` added to
the group after the route's registration both run for that route, and a
global before-hook `c` added to the parent router after the group was
created also runs for the route when the parent serves the request. -/
theorem c6_group_hooks_dispatch_time (b : BHook) (a : AHook) (c : BHook)
    (hb : b.res = BRes.cont) (ha : a.res = ARes.ok)
    (hc : c.res = BRes.cont) :
    serve (c6World b a c) 0 envOk "GET" "/g/x" =
      [Event.bhook c.id, Event.bhook b.id, Event.handler 7 [],
       Event.ahook a.id] := by
  obtain ⟨bid, bres⟩ := b
  obtain ⟨aid, ares⟩ := a
  obtain ⟨cid, cres⟩ := c
  simp only at hb ha hc
  subst hb ha hc
  rfl

/-- Witness for C6 at concrete hook ids 60, 90, 80. -/
theorem c6_witness :
    serve (c6World ⟨60, .cont⟩ ⟨90, .ok⟩ ⟨80, .cont⟩) 0 envOk
        "GET" "/g/x" =
      [Event.bhook 80, Event.bhook 60, Event.handler 7 [],
       Event.ahook 90] := by
  exact c6_group_hooks_dispatch_time ⟨60, .cont⟩ ⟨90, .ok⟩ ⟨80, .cont⟩
    rfl rfl rfl

/-- Scanning a concatenation: the left part is scanned first and its
verdict stands unless it finds no compatible child. -/
theorem selectChild_append (m part : String) (params : Params)
    (l1 l2 : List TrieNode) :
    selectChild m part params (l1 ++ l2) =
      match selectChild m part params l1 with
      | .ok none => selectChild m part params l2
      | .ok (some r) => .ok (some r)
      | .error v => .error v := by
  induction l1 with
  | nil => simp [selectChild]
  | cons c l1' ih =>
    cases hacc : childAccept m part params c with
    | error v => simp [selectChild, hacc]
    | ok o =>
      cases o with
      | none => simp [selectChild, hacc, ih]
      | some r => simp [selectChild, hacc]

/-- C2, amended.  At every depth the children are scanned in storage
(registration) order and the first compatible child wins.  Consequently:
(1) a Param sibling with the request's method is compatible with every
segment, so the scan never proceeds past it — in particular a Static
sibling stored after it, with equal literal and method, is never taken;
(2) the same holds for a Regex sibling stored earlier whenever its
pattern accepts the segment (`FindString(segment) == segment`);
(3) but a Regex sibling whose pattern rejects the segment is skipped, and
the scan continues with the later siblings, so a later Static sibling can
then be taken. -/
theorem c2_first_compatible :
    (∀ (l1 l2 : List TrieNode) (p : TrieNode) (m part : String)
       (params : Params),
      p.nodeType = NodeType.Param → p.method = m →
      selectChild m part params (l1 ++ p :: l2) =
        match selectChild m part params l1 with
        | .ok none => .ok (some (p, paramsInsert params p.pattern part))
        | r => r) ∧
    (∀ (l1 l2 : List TrieNode) (p : TrieNode) (m part : String)
       (params : Params) (name rpat : String) (re : Regexp),
      p.nodeType = NodeType.Regex → p.method = m →
      splitN2 p.pattern ':' = [name, rpat] →
      compileRegex rpat = some re →
      goFindString re part.data = part.data →
      selectChild m part params (l1 ++ p :: l2) =
        match selectChild m part params l1 with
        | .ok none => .ok (some (p, paramsInsert params name part))
        | r => r) ∧
    (∀ (l1 l2 : List TrieNode) (p : TrieNode) (m part : String)
       (params : Params) (name rpat : String) (re : Regexp),
      p.nodeType = NodeType.Regex → p.method = m →
      splitN2 p.pattern ':' = [name, rpat] →
      compileRegex rpat = some re →
      goFindString re part.data ≠ part.data →
      selectChild m part params (l1 ++ p :: l2) =
        selectChild m part params (l1 ++ l2)) := by
  refine ⟨?_, ?_, ?_⟩
  · intro l1 l2 p m part params hnt hp
    have hacc : childAccept m part params p =
        .ok (some (p, paramsInsert params p.pattern part)) := by
      unfold childAccept
      rw [hnt]
      simp [hp]
    rw [selectChild_append]
    cases hsel : selectChild m part params l1 with
    | error v => simp
    | ok o =>
      cases o with
      | none => simp [selectChild, hacc]
      | some r => simp
  · intro l1 l2 p m part params name rpat re hnt hp hsp hre hfind
    have hacc : childAccept m part params p =
        .ok (some (p, paramsInsert params name part)) := by
      unfold childAccept
      rw [hnt, hsp]
      simp [hp, hre, hfind]
    rw [selectChild_append]
    cases hsel : selectChild m part params l1 with
    | error v => simp
    | ok o =>
      cases o with
      | none => simp [selectChild, hacc]
      | some r => simp
  · intro l1 l2 p m part params name rpat re hnt hp hsp hre hfind
    have hacc : childAccept m part params p = .ok none := by
      unfold childAccept
      rw [hnt, hsp]
      simp [hp, hre, hfind]
    rw [selectChild_append, selectChild_append]
    cases hsel : selectChild m part params l1 with
    | error v => simp
    | ok o =>
      cases o with
      | none => simp [selectChild, hacc]
      | some r => simp

/-- Witness for C2 (part 1): a Param sibling (`:x`, GET) focused before a
Static sibling with literal `abc` and the same method captures the
segment `abc`. -/
theorem c2_witness :
    selectChild "GET" "abc" []
        [TrieNode.mk [] (some (.plain 1)) 1 "x" .Param "GET" "/x",
         TrieNode.mk [] (some (.plain 2)) 1 "abc" .Static "GET" "/abc"] =
      .ok (some (TrieNode.mk [] (some (.plain 1)) 1 "x" .Param "GET" "/x",
        [("x", "abc")])) := by
  exact c2_first_compatible.1 []
    [TrieNode.mk [] (some (.plain 2)) 1 "abc" .Static "GET" "/abc"]
    (TrieNode.mk [] (some (.plain 1)) 1 "x" .Param "GET" "/x")
    "GET" "abc" [] rfl rfl

/-- Replacing the child list keeps the node's handler. -/
@[simp] theorem handler_setChildren (t : TrieNode) (c : List TrieNode) :
    (t.setChildren c).handler = t.handler := by
  cases t; rfl

/-- Replacing the child list installs exactly that list. -/
@[simp] theorem children_setChildren (t : TrieNode) (c : List TrieNode) :
    (t.setChildren c).children = c := by
  cases t; rfl

/-- Replacing the child list keeps the node's pattern. -/
@[simp] theorem pattern_setChildren (t : TrieNode) (c : List TrieNode) :
    (t.setChildren c).pattern = t.pattern := by
  cases t; rfl

/-- Replacing the child list keeps the node's type. -/
@[simp] theorem nodeType_setChildren (t : TrieNode) (c : List TrieNode) :
    (t.setChildren c).nodeType = t.nodeType := by
  cases t; rfl

/-- Replacing the child list keeps the node's method. -/
@[simp] theorem method_setChildren (t : TrieNode) (c : List TrieNode) :
    (t.setChildren c).method = t.method := by
  cases t; rfl

/-- Setting the handler installs exactly that handler. -/
@[simp] theorem handler_setHandler (t : TrieNode) (h : Option RouteH) :
    (t.setHandler h).handler = h := by
  cases t; rfl

/-- Setting the handler keeps the children. -/
@[simp] theorem children_setHandler (t : TrieNode) (h : Option RouteH) :
    (t.setHandler h).children = t.children := by
  cases t; rfl

/-- Setting the handler keeps the node's pattern. -/
@[simp] theorem pattern_setHandler (t : TrieNode) (h : Option RouteH) :
    (t.setHandler h).pattern = t.pattern := by
  cases t; rfl

/-- Setting the handler keeps the node's type. -/
@[simp] theorem nodeType_setHandler (t : TrieNode) (h : Option RouteH) :
    (t.setHandler h).nodeType = t.nodeType := by
  cases t; rfl

/-- Setting the handler keeps the node's method. -/
@[simp] theorem method_setHandler (t : TrieNode) (h : Option RouteH) :
    (t.setHandler h).method = t.method := by
  cases t; rfl

/-- What a successful child split means: the scanned prefix fails the
match, the found child passes it. -/
theorem findChildSplit_some (pat : String) (nt : NodeType) (m : String) :
    ∀ (cs pre : List TrieNode) (c : TrieNode) (post : List TrieNode),
      findChildSplit pat nt m cs = some (pre, c, post) →
      cs = pre ++ c :: post ∧
      (∀ x ∈ pre, addChildMatch pat nt m x = false) ∧
      addChildMatch pat nt m c = true := by
  intro cs
  induction cs with
  | nil => intro pre c post h; simp [findChildSplit] at h
  | cons d cs' ih =>
    intro pre c post h
    by_cases hd : addChildMatch pat nt m d
    · simp only [findChildSplit, if_pos hd, Option.some.injEq,
        Prod.mk.injEq] at h
      obtain ⟨h1, h2, h3⟩ := h
      subst h1 h2 h3
      exact ⟨rfl, by simp, hd⟩
    · simp only [findChildSplit, if_neg hd] at h
      cases hsub : findChildSplit pat nt m cs' with
      | none => rw [hsub] at h; simp at h
      | some r =>
        obtain ⟨pre', c', post'⟩ := r
        rw [hsub] at h
        simp only [Option.map_some', Option.some.injEq,
          Prod.mk.injEq] at h
        obtain ⟨h1, h2, h3⟩ := h
        subst h1 h2 h3
        obtain ⟨e1, e2, e3⟩ := ih pre' c' post' hsub
        refine ⟨by simp [e1], ?_, e3⟩
        intro x hx
        rcases List.mem_cons.mp hx with hx | hx
        · subst hx; simpa using hd
        · exact e2 x hx

/-- A failed child split means every child fails the match. -/
theorem findChildSplit_none (pat : String) (nt : NodeType) (m : String) :
    ∀ cs, findChildSplit pat nt m cs = none →
      ∀ x ∈ cs, addChildMatch pat nt m x = false := by
  intro cs
  induction cs with
  | nil => intro _ x hx; simp at hx
  | cons d cs' ih =>
    intro h x hx
    by_cases hd : addChildMatch pat nt m d
    · simp [findChildSplit, hd] at h
    · simp only [findChildSplit, if_neg hd] at h
      rcases List.mem_cons.mp hx with hx | hx
      · subst hx; simpa using hd
      · exact ih (by cases hsub : findChildSplit pat nt m cs' with
          | none => rfl
          | some r => rw [hsub] at h; simp at h) x hx

/-- Rebuilding a split: a failing prefix and a passing child are found
exactly there. -/
theorem findChildSplit_build (pat : String) (nt : NodeType) (m : String) :
    ∀ (pre : List TrieNode) (c : TrieNode) (post : List TrieNode),
      (∀ x ∈ pre, addChildMatch pat nt m x = false) →
      addChildMatch pat nt m c = true →
      findChildSplit pat nt m (pre ++ c :: post) = some (pre, c, post) := by
  intro pre
  induction pre with
  | nil =>
    intro c post _ hc
    simp [findChildSplit, hc]
  | cons d pre' ih =>
    intro c post hpre hc
    have hd : addChildMatch pat nt m d = false := hpre d (by simp)
    have ih2 := ih c post (fun x hx => hpre x (by simp [hx])) hc
    simp [findChildSplit, hd, ih2]

/-- A successful `addParts` keeps the node's own pattern, type and
method. -/
theorem addParts_triple (m : String) (h : RouteH) :
    ∀ (parts : List String) (t t' : TrieNode),
      addParts m h parts t = .ok t' →
      t'.pattern = t.pattern ∧ t'.nodeType = t.nodeType ∧
        t'.method = t.method := by
  intro parts
  cases parts with
  | nil =>
    intro t t' hok
    unfold addParts at hok
    cases hh : t.handler with
    | some _ => rw [hh] at hok; simp at hok
    | none =>
      rw [hh] at hok
      simp only [Except.ok.injEq] at hok
      subst hok
      simp
  | cons part rest =>
    intro t t' hok
    unfold addParts at hok
    rcases hcl : getNodeTypeAndPattern part with ⟨nt, pat, pn⟩
    rw [hcl] at hok
    simp only [] at hok
    cases hsplit : findChildSplit pat nt m t.children with
    | some r =>
      obtain ⟨pre, c, post⟩ := r
      rw [hsplit] at hok
      simp only [] at hok
      cases hrec : addParts m h rest c with
      | error e => rw [hrec] at hok; simp [Except.map] at hok
      | ok c2 =>
        rw [hrec] at hok
        simp only [Except.map, Except.ok.injEq] at hok
        subst hok
        simp
    | none =>
      rw [hsplit] at hok
      simp only [] at hok
      cases hrec : addParts m h rest
          (.mk [] none (t.level + 1)
            (if nt = NodeType.Regex then pn ++ ":" ++ pat else pat)
            nt m (t.fullPath ++ "/" ++ pat)) with
      | error e => rw [hrec] at hok; simp at hok
      | ok c2 =>
        rw [hrec] at hok
        simp only [Except.ok.injEq] at hok
        subst hok
        simp

/-- Core of C3: on a segment list without Regex segments, a second
`addParts` for the same method retraces the first one's path and hits
the already-set handler. -/
theorem addParts_dup (m : String) (h1 h2 : RouteH) :
    ∀ (parts : List String) (t t' : TrieNode),
      (∀ part ∈ parts, (getNodeTypeAndPattern part).1 ≠ NodeType.Regex) →
      addParts m h1 parts t = .ok t' →
      addParts m h2 parts t' = .error () := by
  intro parts
  induction parts with
  | nil =>
    intro t t' _ hok
    unfold addParts at hok ⊢
    cases hh : t.handler with
    | some _ => rw [hh] at hok; simp at hok
    | none =>
      rw [hh] at hok
      simp only [Except.ok.injEq] at hok
      subst hok
      simp
  | cons part rest ih =>
    intro t t' hreg hok
    have hrest : ∀ q ∈ rest, (getNodeTypeAndPattern q).1 ≠ NodeType.Regex :=
      fun q hq => hreg q (by simp [hq])
    have hhead : (getNodeTypeAndPattern part).1 ≠ NodeType.Regex :=
      hreg part (by simp)
    unfold addParts at hok ⊢
    revert hok
    generalize hcl : getNodeTypeAndPattern part = cls
    obtain ⟨nt, pat, pn⟩ := cls
    intro hok
    have hnt : nt ≠ NodeType.Regex := by rw [hcl] at hhead; exact hhead
    simp only [] at hok ⊢
    cases hsplit : findChildSplit pat nt m t.children with
    | some r =>
      obtain ⟨pre, c, post⟩ := r
      rw [hsplit] at hok
      simp only [] at hok
      cases hrec : addParts m h1 rest c with
      | error e => rw [hrec] at hok; simp [Except.map] at hok
      | ok c2 =>
        rw [hrec] at hok
        simp only [Except.map, Except.ok.injEq] at hok
        subst hok
        obtain ⟨hsp1, hsp2, hsp3⟩ := findChildSplit_some pat nt m
          t.children pre c post hsplit
        have htr := addParts_triple m h1 rest c c2 hrec
        have hc2 : addChildMatch pat nt m c2 = true := by
          unfold addChildMatch at hsp3 ⊢
          rw [htr.1, htr.2.1, htr.2.2]
          exact hsp3
        have hsplit2 : findChildSplit pat nt m
            ((t.setChildren (pre ++ c2 :: post)).children) =
              some (pre, c2, post) := by
          rw [children_setChildren]
          exact findChildSplit_build pat nt m pre c2 post hsp2 hc2
        rw [hsplit2]
        simp only []
        rw [ih c c2 hrest hrec]
        rfl
    | none =>
      rw [hsplit] at hok
      simp only [] at hok
      cases hrec : addParts m h1 rest
          (.mk [] none (t.level + 1)
            (if nt = NodeType.Regex then pn ++ ":" ++ pat else pat)
            nt m (t.fullPath ++ "/" ++ pat)) with
      | error e => rw [hrec] at hok; simp at hok
      | ok c2 =>
        rw [hrec] at hok
        simp only [Except.ok.injEq] at hok
        subst hok
        have hall := findChildSplit_none pat nt m t.children hsplit
        have htr := addParts_triple m h1 rest _ c2 hrec
        have hc2 : addChildMatch pat nt m c2 = true := by
          unfold addChildMatch
          rw [htr.1, htr.2.1, htr.2.2]
          simp [TrieNode.pattern, TrieNode.nodeType, TrieNode.method,
            if_neg hnt]
        have hsplit2 : findChildSplit pat nt m
            ((t.setChildren (t.children ++ [c2])).children) =
              some (t.children, c2, []) := by
          rw [children_setChildren]
          exact findChildSplit_build pat nt m t.children c2 [] hall hc2
        rw [hsplit2]
        simp only []
        rw [ih _ c2 hrest hrec]
        rfl

/-- C3, amended.  For every method and path pattern whose segments are
all classified Static or Param, a second `AddRoute` with the same
(method, path) after a first successful registration panics at the
second call instead of silently overwriting the first handler.  (For a
path containing a Regex segment the second call does not panic — see the
counterexample: the child lookup compares the raw regex text against the
stored `name:regex` pattern and appends a shadowed duplicate branch
instead.) -/
theorem c3_duplicate_registration_panics (m path : String)
    (h1 h2 : RouteH) (t t' : TrieNode)
    (hreg : ∀ part ∈ splitPath path,
      (getNodeTypeAndPattern part).1 ≠ NodeType.Regex)
    (hok : addRoute t m path h1 = .ok t') :
    addRoute t' m path h2 = .error () :=
  addParts_dup m h1 h2 (splitPath path) t t' hreg hok

/-- Witness for C3: registering GET `/a/b` twice panics at the second
call. -/
theorem c3_witness :
    addRoute
      (.mk [.mk [.mk [] (some (.plain 1)) 2 "b" .Static "GET" "/a/b"]
        none 1 "a" .Static "GET" "/a"] none 0 "" .Static "" "")
      "GET" "/a/b" (.plain 2) = .error () := by
  exact c3_duplicate_registration_panics "GET" "/a/b" (.plain 1) (.plain 2)
    rootNode _ (by decide) rfl

/-- `tripleEq` only looks at kind, pattern and method (right argument). -/
theorem tripleEq_congr_right (x c c' : TrieNode)
    (h1 : c'.pattern = c.pattern) (h2 : c'.nodeType = c.nodeType)
    (h3 : c'.method = c.method) : tripleEq x c' = tripleEq x c := by
  unfold tripleEq
  rw [h1, h2, h3]

/-- `tripleEq` only looks at kind, pattern and method (left argument). -/
theorem tripleEq_congr_left (x c c' : TrieNode)
    (h1 : c'.pattern = c.pattern) (h2 : c'.nodeType = c.nodeType)
    (h3 : c'.method = c.method) : tripleEq c' x = tripleEq c x := by
  unfold tripleEq
  rw [h1, h2, h3]

/-- Sibling uniqueness is unchanged when one sibling is replaced by a
node with the same kind, pattern and method. -/
theorem pairwiseNoDup_replace (c c' : TrieNode)
    (h1 : c'.pattern = c.pattern) (h2 : c'.nodeType = c.nodeType)
    (h3 : c'.method = c.method) :
    ∀ (pre post : List TrieNode),
      pairwiseNoDup (pre ++ c' :: post) = pairwiseNoDup (pre ++ c :: post) := by
  intro pre
  induction pre with
  | nil =>
    intro post
    simp only [List.nil_append, pairwiseNoDup, h2]
    have hfun : (fun d => !tripleEq c' d) = (fun d => !tripleEq c d) := by
      funext d
      rw [tripleEq_congr_left d c c' h1 h2 h3]
    rw [hfun]
  | cons a pre' ih =>
    intro post
    simp only [List.cons_append, pairwiseNoDup, List.append_eq,
      List.all_append, List.all_cons, ih post]
    rw [tripleEq_congr_right a c c' h1 h2 h3]

/-- Appending a sibling that clashes with no existing non-Regex sibling
keeps sibling uniqueness. -/
theorem pairwiseNoDup_append_one (c' : TrieNode) :
    ∀ cs, pairwiseNoDup cs = true →
      (∀ x ∈ cs, x.nodeType = NodeType.Regex ∨ tripleEq x c' = false) →
      pairwiseNoDup (cs ++ [c']) = true := by
  intro cs
  induction cs with
  | nil => intro _ _; simp [pairwiseNoDup]
  | cons a cs' ih =>
    intro hp hx
    simp only [pairwiseNoDup, Bool.and_eq_true] at hp
    obtain ⟨ha, hp'⟩ := hp
    have hih := ih hp' (fun x hxm => hx x (by simp [hxm]))
    simp only [List.cons_append, pairwiseNoDup, Bool.and_eq_true,
      List.all_append, List.all_cons, List.all_nil]
    refine ⟨?_, hih⟩
    rcases Bool.or_eq_true_iff.mp ha with ha' | ha'
    · simp [ha']
    · rcases hx a (by simp) with hreg | hne
      · simp [hreg]
      · simp [ha', hne]

/-- A node with no children satisfies the uniqueness invariant at every
depth. -/
theorem noDupUpTo_leaf (hl : Nat) (pat : String) (nt : NodeType)
    (m fp : String) (h : Option RouteH) :
    ∀ d, noDupUpTo d (.mk [] h hl pat nt m fp) = true := by
  intro d
  cases d <;> simp [noDupUpTo, pairwiseNoDup, TrieNode.children]

/-- Setting a handler does not change the uniqueness invariant. -/
theorem noDupUpTo_setHandler (t : TrieNode) (h : Option RouteH) :
    ∀ d, noDupUpTo d (t.setHandler h) = noDupUpTo d t := by
  intro d
  cases d with
  | zero => rfl
  | succ d => cases t; rfl

/-- Members of an invariant node's child list satisfy the invariant one
level down. -/
theorem noDupUpTo_mem (t : TrieNode) (d : Nat) (c : TrieNode)
    (ht : noDupUpTo (d + 1) t = true) (hc : c ∈ t.children) :
    noDupUpTo d c = true := by
  simp only [noDupUpTo, Bool.and_eq_true, List.all_eq_true] at ht
  exact ht.2 c hc

/-- Invariant nodes have unique non-Regex siblings at the top level. -/
theorem noDupUpTo_pairwise (t : TrieNode) (d : Nat)
    (ht : noDupUpTo (d + 1) t = true) :
    pairwiseNoDup t.children = true := by
  simp only [noDupUpTo, Bool.and_eq_true] at ht
  exact ht.1

/-- Core of C4: a successful `AddRoute` step preserves the sibling
uniqueness invariant at every depth. -/
theorem addParts_noDup (m : String) (h : RouteH) :
    ∀ (parts : List String) (t t' : TrieNode),
      (∀ d, noDupUpTo d t = true) →
      addParts m h parts t = .ok t' →
      ∀ d, noDupUpTo d t' = true := by
  intro parts
  induction parts with
  | nil =>
    intro t t' hinv hok
    unfold addParts at hok
    cases hh : t.handler with
    | some _ => rw [hh] at hok; simp at hok
    | none =>
      rw [hh] at hok
      simp only [Except.ok.injEq] at hok
      subst hok
      intro d
      rw [noDupUpTo_setHandler]
      exact hinv d
  | cons part rest ih =>
    intro t t' hinv hok
    unfold addParts at hok
    revert hok
    generalize hcl : getNodeTypeAndPattern part = cls
    obtain ⟨nt, pat, pn⟩ := cls
    intro hok
    simp only [] at hok
    cases hsplit : findChildSplit pat nt m t.children with
    | some r =>
      obtain ⟨pre, c, post⟩ := r
      rw [hsplit] at hok
      simp only [] at hok
      cases hrec : addParts m h rest c with
      | error e => rw [hrec] at hok; simp [Except.map] at hok
      | ok c2 =>
        rw [hrec] at hok
        simp only [Except.map, Except.ok.injEq] at hok
        subst hok
        obtain ⟨hsp1, _, _⟩ := findChildSplit_some pat nt m
          t.children pre c post hsplit
        have htr := addParts_triple m h rest c c2 hrec
        have hcmem : c ∈ t.children := by rw [hsp1]; simp
        have hc2inv : ∀ d, noDupUpTo d c2 = true :=
          ih c c2 (fun d => noDupUpTo_mem t d c (hinv (d + 1)) hcmem) hrec
        intro d
        cases d with
        | zero => rfl
        | succ d =>
          simp only [noDupUpTo, children_setChildren, Bool.and_eq_true,
            List.all_eq_true]
          constructor
          · rw [pairwiseNoDup_replace c c2 htr.1 htr.2.1 htr.2.2 pre post]
            rw [← hsp1]
            exact noDupUpTo_pairwise t d (hinv (d + 1))
          · intro x hxm
            rcases List.mem_append.mp hxm with hx | hx
            · exact noDupUpTo_mem t d x (hinv (d + 1))
                (by rw [hsp1]; simp [hx])
            · rcases List.mem_cons.mp hx with hx | hx
              · subst hx; exact hc2inv d
              · exact noDupUpTo_mem t d x (hinv (d + 1))
                  (by rw [hsp1]; simp [hx])
    | none =>
      rw [hsplit] at hok
      simp only [] at hok
      cases hrec : addParts m h rest
          (.mk [] none (t.level + 1)
            (if nt = NodeType.Regex then pn ++ ":" ++ pat else pat)
            nt m (t.fullPath ++ "/" ++ pat)) with
      | error e => rw [hrec] at hok; simp at hok
      | ok c2 =>
        rw [hrec] at hok
        simp only [Except.ok.injEq] at hok
        subst hok
        have htr := addParts_triple m h rest _ c2 hrec
        have hall := findChildSplit_none pat nt m t.children hsplit
        have hc2inv : ∀ d, noDupUpTo d c2 = true :=
          ih _ c2 (noDupUpTo_leaf _ _ _ _ _ _) hrec
        have hc2pat : c2.pattern =
            (if nt = NodeType.Regex then pn ++ ":" ++ pat else pat) := htr.1
        have hc2nt : c2.nodeType = nt := htr.2.1
        have hc2m : c2.method = m := htr.2.2
        intro d
        cases d with
        | zero => rfl
        | succ d =>
          simp only [noDupUpTo, children_setChildren, Bool.and_eq_true,
            List.all_eq_true]
          constructor
          · apply pairwiseNoDup_append_one c2 t.children
              (noDupUpTo_pairwise t d (hinv (d + 1)))
            intro x hxm
            by_cases hreg : nt = NodeType.Regex
            · by_cases htx : tripleEq x c2 = true
              · left
                unfold tripleEq at htx
                simp only [Bool.and_eq_true, decide_eq_true_eq] at htx
                rw [htx.1.1, hc2nt, hreg]
              · right
                exact Bool.eq_false_iff.mpr htx
            · right
              have hmatch := hall x hxm
              unfold addChildMatch at hmatch
              unfold tripleEq
              rw [hc2nt, hc2pat, if_neg hreg, hc2m]
              cases hA : (x.pattern == pat) <;>
                cases hB : (decide (x.nodeType = nt)) <;>
                cases hC : (x.method == m) <;>
                simp [hA, hB, hC] at hmatch ⊢
          · intro x hxm
            rcases List.mem_append.mp hxm with hx | hx
            · exact noDupUpTo_mem t d x (hinv (d + 1)) hx
            · rcases List.mem_cons.mp hx with hx | hx
              · subst hx; exact hc2inv d
              · simp at hx

/-- A successful registration sequence preserves the invariant. -/
theorem addRoutes_noDup :
    ∀ (regs : List (String × String × RouteH)) (t t' : TrieNode),
      (∀ d, noDupUpTo d t = true) →
      addRoutes regs t = .ok t' →
      ∀ d, noDupUpTo d t' = true := by
  intro regs
  induction regs with
  | nil =>
    intro t t' hinv hok
    unfold addRoutes at hok
    simp only [Except.ok.injEq] at hok
    subst hok
    exact hinv
  | cons r regs' ih =>
    intro t t' hinv hok
    obtain ⟨m, p, h⟩ := r
    unfold addRoutes at hok
    cases hstep : addRoute t m p h with
    | error e => rw [hstep] at hok; simp at hok
    | ok t2 =>
      rw [hstep] at hok
      simp only [] at hok
      exact ih t2 t'
        (addParts_noDup m h (splitPath p) t t2 hinv hstep) hok

/-- C4, amended.  After any panic-free sequence of `AddRoute` calls on a
new router, no node of the trie has two distinct children that agree on
kind, pattern text and method with kind Static or Param: a registration
reaching a node with a matching child descends into it instead of
appending a duplicate.  (Regex registrations always append a fresh
sibling — see the counterexample — which is why Regex kinds are exempt
from the invariant.) -/
theorem c4_no_duplicate_sibling (regs : List (String × String × RouteH))
    (t : TrieNode) (hok : addRoutes regs rootNode = .ok t) :
    ∀ d, noDupUpTo d t = true :=
  addRoutes_noDup regs rootNode t
    (noDupUpTo_leaf 0 "" .Static "" "" none) hok

/-- Witness for C4 on the concrete sequence GET `/a`, GET `/b`,
GET `/a/c`. -/
theorem c4_witness :
    noDupUpTo 3
      (.mk [.mk [.mk [] (some (.plain 3)) 2 "c" .Static "GET" "/a/c"]
              (some (.plain 1)) 1 "a" .Static "GET" "/a",
            .mk [] (some (.plain 2)) 1 "b" .Static "GET" "/b"]
        none 0 "" .Static "" "") = true := by
  exact c4_no_duplicate_sibling
    [("GET", "/a", .plain 1), ("GET", "/b", .plain 2),
     ("GET", "/a/c", .plain 3)] _ rfl 3

/-- Soundness of the backtracking matcher: every listed result is the
suffix left over by a true match, at any fuel. -/
theorem allResF_sound : ∀ (f : Nat) (r : Regexp) (s s2 : List Char),
    s2 ∈ allResF f r s → ∃ t, s = t ++ s2 ∧ Matches r t := by
  intro f
  induction f with
  | zero => intro r s s2 h; simp [allResF] at h
  | succ f ihf =>
    intro r s s2 h
    cases r with
    | emptyR =>
      simp [allResF] at h
      exact ⟨[], by simp [h], Matches.empty⟩
    | lit c =>
      cases s with
      | nil => simp [allResF] at h
      | cons a rest =>
        by_cases hac : a == c
        · simp [allResF, hac] at h
          refine ⟨[a], by simp [h], ?_⟩
          rw [show a = c from by simpa using hac]
          exact Matches.lit
        · simp [allResF, hac] at h
    | cls items =>
      cases s with
      | nil => simp [allResF] at h
      | cons a rest =>
        by_cases hac : inClass items a
        · simp [allResF, hac] at h
          exact ⟨[a], by simp [h], Matches.cls hac⟩
        · simp [allResF, hac] at h
    | alt a b =>
      simp only [allResF, List.mem_append] at h
      rcases h with h | h
      · obtain ⟨t, ht, hm⟩ := ihf a s s2 h
        exact ⟨t, ht, Matches.altL hm⟩
      · obtain ⟨t, ht, hm⟩ := ihf b s s2 h
        exact ⟨t, ht, Matches.altR hm⟩
    | seq a b =>
      simp only [allResF, List.mem_flatMap] at h
      obtain ⟨x, hx, hs2⟩ := h
      obtain ⟨t1, ht1, hm1⟩ := ihf a s x hx
      obtain ⟨t2, ht2, hm2⟩ := ihf b x s2 hs2
      exact ⟨t1 ++ t2, by simp [ht1, ht2], Matches.seqM hm1 hm2⟩
    | star a =>
      simp only [allResF, List.mem_append, List.mem_flatMap,
        List.mem_filter] at h
      rcases h with ⟨x, ⟨hx, _⟩, hs2⟩ | h
      · obtain ⟨t1, ht1, hm1⟩ := ihf a s x hx
        obtain ⟨t2, ht2, hm2⟩ := ihf (.star a) x s2 hs2
        exact ⟨t1 ++ t2, by simp [ht1, ht2], Matches.starCons hm1 hm2⟩
      · simp at h
        exact ⟨[], by simp [h], Matches.starNil⟩

/-- A found match is never longer than the searched text. -/
theorem findFromR_length (r : Regexp) :
    ∀ (s t : List Char), findFromR r s = some t → t.length ≤ s.length := by
  intro s
  induction s with
  | nil =>
    intro t h
    unfold findFromR at h
    cases hm : matchLenAt r [] with
    | none => rw [hm] at h; simp at h
    | some n =>
      rw [hm] at h
      simp only [Option.some.injEq] at h
      subst h
      simp
  | cons c rest ih =>
    intro t h
    unfold findFromR at h
    cases hm : matchLenAt r (c :: rest) with
    | none =>
      rw [hm] at h
      exact le_trans (ih t h) (by simp)
    | some n =>
      rw [hm] at h
      simp only [Option.some.injEq] at h
      subst h
      simp only [List.length_take]
      exact min_le_right _ _

/-- When the code's `FindString(segment) == segment` test succeeds on a
nonempty segment, the segment is a true whole-segment match of the
pattern. -/
theorem find_whole_matches (re : Regexp) (s : List Char)
    (hf : goFindString re s = s) (hne : s ≠ []) : Matches re s := by
  unfold goFindString at hf
  cases hfind : findFromR re s with
  | none => rw [hfind] at hf; simp at hf; exact absurd hf hne
  | some t =>
    rw [hfind] at hf
    simp only [Option.getD_some] at hf
    cases s with
    | nil => exact absurd rfl hne
    | cons c rest =>
      subst hf
      unfold findFromR at hfind
      cases hm : matchLenAt re (c :: rest) with
      | none =>
        rw [hm] at hfind
        have := findFromR_length re rest _ hfind
        simp at this
      | some n =>
        rw [hm] at hfind
        simp only [Option.some.injEq] at hfind
        unfold matchLenAt at hm
        cases hres : allResF (bigFuel re (c :: rest)) re (c :: rest) with
        | nil => rw [hres] at hm; simp at hm
        | cons x xs =>
          rw [hres] at hm
          simp only [List.head?_cons, Option.some.injEq] at hm
          have hxmem : x ∈ allResF (bigFuel re (c :: rest)) re (c :: rest) := by
            rw [hres]; simp
          obtain ⟨t', ht', hmt⟩ := allResF_sound _ re (c :: rest) x hxmem
          have hlen : (c :: rest).length = t'.length + x.length := by
            rw [ht']; simp
          have htake : (c :: rest).length ≤ n := by
            by_contra hlt
            push_neg at hlt
            have := congrArg List.length hfind
            simp only [List.length_take] at this
            omega
          have hx0 : x.length = 0 := by omega
          have hxnil : x = [] := List.length_eq_zero.mp hx0

          rw [hxnil, List.append_nil] at ht'
          rw [ht']
          exact hmt

/-- C5, amended.  A Regex node's acceptance test is
`FindString(segment) == segment` on the compiled pattern: for a nonempty
segment, acceptance implies that the segment is an anchored whole-segment
match of the pattern (the converse fails, and the empty segment is always
accepted — see the counterexample).  On acceptance `params[name]` is
bound to the segment.  The specification's concrete examples hold: with
POST `/product/{id:[0-9]+}` registered, POST `/product/123` matches with
`id` bound to `123`, and POST `/product/abc` falls through to the
asset-fallback/not-found chain. -/
theorem c5_regex_acceptance :
    (∀ (re : Regexp) (s : List Char),
      goFindString re s = s → s ≠ [] → Matches re s) ∧
    serve (mkWorld1 [("POST", "/product/{id:[0-9]+}", .plain 9)]) 0 envOk
      "POST" "/product/123" = [Event.handler 9 [("id", "123")]] ∧
    serve (mkWorld1 [("POST", "/product/{id:[0-9]+}", .plain 9)]) 0 envOk
      "POST" "/product/abc" = [Event.assets, Event.notFound] :=
  ⟨find_whole_matches, rfl, rfl⟩

/-- Witness for C5: the accepted segment `123` of the pattern `[0-9]+`
is a whole-segment match. -/
theorem c5_witness : Matches re09val ['1', '2', '3'] := by
  exact c5_regex_acceptance.1 re09val ['1', '2', '3'] rfl (by decide)

/-- Children of an all-Static node are Static all the way down. -/
theorem allStatic_mem (t : TrieNode) (d : Nat) (c : TrieNode)
    (ht : allStaticUpTo (d + 1) t = true) (hc : c ∈ t.children) :
    c.nodeType = NodeType.Static ∧ allStaticUpTo d c = true := by
  simp only [allStaticUpTo, List.all_eq_true, Bool.and_eq_true,
    decide_eq_true_eq] at ht
  exact ht c hc

/-- A member of an `AllStatic` node's child list is Static and
`AllStatic`. -/
theorem AllStatic_mem (t : TrieNode) (c : TrieNode) (ht : AllStatic t)
    (hc : c ∈ t.children) : c.nodeType = NodeType.Static ∧ AllStatic c :=
  ⟨(allStatic_mem t 0 c (ht 1) hc).1,
   fun d => (allStatic_mem t d c (ht (d + 1)) hc).2⟩

/-- A childless node is `AllStatic` at every depth. -/
theorem allStaticUpTo_leaf (hl : Nat) (pat : String) (nt : NodeType)
    (m fp : String) (h : Option RouteH) :
    ∀ d, allStaticUpTo d (.mk [] h hl pat nt m fp) = true := by
  intro d
  cases d <;> simp [allStaticUpTo, TrieNode.children]

/-- Setting a handler does not change staticness. -/
theorem allStaticUpTo_setHandler (t : TrieNode) (h : Option RouteH) :
    ∀ d, allStaticUpTo d (t.setHandler h) = allStaticUpTo d t := by
  intro d
  cases d with
  | zero => rfl
  | succ d => cases t; rfl

/-- On an all-Static child list, the scan is the literal first-match
lookup of `staticWalk`. -/
theorem selectChild_static (m part : String) (params : Params) :
    ∀ cs, (∀ c ∈ cs, c.nodeType = NodeType.Static) →
      selectChild m part params cs =
        .ok ((cs.find? (fun c => c.method == m && c.pattern == part)).map
          (fun c => (c, params))) := by
  intro cs
  induction cs with
  | nil => intro _; rfl
  | cons c cs' ih =>
    intro hall
    have hst : c.nodeType = NodeType.Static := hall c (by simp)
    have hacc : childAccept m part params c =
        if c.method == m && c.pattern == part then .ok (some (c, params))
        else .ok none := by
      unfold childAccept
      rw [hst]
    by_cases hp : (c.method == m && c.pattern == part) = true
    · simp [selectChild, hacc, hp, List.find?_cons_of_pos]
    · have hp' : (c.method == m && c.pattern == part) = false :=
        Bool.eq_false_iff.mpr hp
      simp [selectChild, hacc, hp', List.find?_cons_of_neg,
        ih (fun x hx => hall x (by simp [hx]))]

/-- On an `AllStatic` trie the walk is exactly `staticWalk`, binding no
parameters. -/
theorem walkParts_static (m : String) :
    ∀ (parts : List String) (t : TrieNode) (params : Params),
      AllStatic t →
      walkParts m parts t params =
        .ok ((staticWalk m parts t).map (fun n => (n, params))) := by
  intro parts
  induction parts with
  | nil => intro t params _; rfl
  | cons part rest ih =>
    intro t params ht
    have hsel := selectChild_static m part params t.children
      (fun c hc => (AllStatic_mem t c ht hc).1)
    unfold walkParts staticWalk
    rw [hsel]
    cases hfind : t.children.find?
        (fun c => c.method == m && c.pattern == part) with
    | none => simp
    | some c =>
      simp only [Option.map_some']
      exact ih c params (AllStatic_mem t c ht (List.mem_of_find?_eq_some hfind)).2

/-- A segment classified Static keeps its own text as the pattern. -/
theorem classify_static :
    ∀ (part : String) (nt : NodeType) (pat pn : String),
      getNodeTypeAndPattern part = (nt, pat, pn) →
      nt = NodeType.Static → pat = part := by
  intro part nt pat pn hcl hnt
  subst hnt
  unfold getNodeTypeAndPattern at hcl
  split at hcl
  · simp at hcl
  · split at hcl
    · split at hcl
      · simp at hcl
      · simp only [Prod.mk.injEq] at hcl
        exact hcl.2.1.symm
    · simp only [Prod.mk.injEq] at hcl
      exact hcl.2.1.symm
  · simp only [Prod.mk.injEq] at hcl
    exact hcl.2.1.symm

/-- First-match lookup in a list with a failing prefix. -/
theorem find?_build {α : Type} (p : α → Bool) :
    ∀ (pre : List α) (c : α) (post : List α),
      (∀ x ∈ pre, p x = false) → p c = true →
      (pre ++ c :: post).find? p = some c := by
  intro pre
  induction pre with
  | nil => intro c post _ hc; simp [List.find?_cons_of_pos, hc]
  | cons a pre' ih =>
    intro c post hpre hc
    have ha : p a = false := hpre a (by simp)
    simp only [List.cons_append]
    rw [List.find?_cons_of_neg _ (by simp [ha])]
    exact ih c post (fun x hx => hpre x (by simp [hx])) hc

/-- On Static nodes the walk's match test agrees with `AddRoute`'s child
lookup test. -/
theorem static_pred_eq (m part : String) (x : TrieNode)
    (hx : x.nodeType = NodeType.Static) :
    (x.method == m && x.pattern == part) =
      addChildMatch part NodeType.Static m x := by
  unfold addChildMatch
  rw [hx]
  simp only [decide_True]
  cases hA : (x.method == m) <;> cases hB : (x.pattern == part) <;> simp

/-- A successful `addParts` with Static segments keeps the trie
all-Static. -/
theorem addParts_static_preserve (m : String) (h : RouteH) :
    ∀ (parts : List String) (t t' : TrieNode),
      (∀ part ∈ parts, (getNodeTypeAndPattern part).1 = NodeType.Static) →
      AllStatic t → addParts m h parts t = .ok t' → AllStatic t' := by
  intro parts
  induction parts with
  | nil =>
    intro t t' _ hst hok
    unfold addParts at hok
    cases hh : t.handler with
    | some _ => rw [hh] at hok; simp at hok
    | none =>
      rw [hh] at hok
      simp only [Except.ok.injEq] at hok
      subst hok
      intro d
      rw [allStaticUpTo_setHandler]
      exact hst d
  | cons part rest ih =>
    intro t t' hreg hst hok
    have hrest : ∀ q ∈ rest, (getNodeTypeAndPattern q).1 = NodeType.Static :=
      fun q hq => hreg q (by simp [hq])
    have hhead : (getNodeTypeAndPattern part).1 = NodeType.Static :=
      hreg part (by simp)
    unfold addParts at hok
    revert hok
    generalize hcl : getNodeTypeAndPattern part = cls
    obtain ⟨nt, pat, pn⟩ := cls
    intro hok
    have hnt : nt = NodeType.Static := by rw [hcl] at hhead; exact hhead
    simp only [] at hok
    cases hsplit : findChildSplit pat nt m t.children with
    | some r =>
      obtain ⟨pre, c, post⟩ := r
      rw [hsplit] at hok
      simp only [] at hok
      cases hrec : addParts m h rest c with
      | error e => rw [hrec] at hok; simp [Except.map] at hok
      | ok c2 =>
        rw [hrec] at hok
        simp only [Except.map, Except.ok.injEq] at hok
        subst hok
        obtain ⟨hsp1, _, _⟩ := findChildSplit_some pat nt m
          t.children pre c post hsplit
        have hcmem : c ∈ t.children := by rw [hsp1]; simp
        obtain ⟨hcst, hcall⟩ := AllStatic_mem t c hst hcmem
        have htr := addParts_triple m h rest c c2 hrec
        have hc2all := ih c c2 hrest hcall hrec
        intro d
        cases d with
        | zero => rfl
        | succ d =>
          simp only [allStaticUpTo, children_setChildren, List.all_eq_true,
            Bool.and_eq_true, decide_eq_true_eq]
          intro x hxm
          rcases List.mem_append.mp hxm with hx | hx
          · obtain ⟨h1, h2⟩ := AllStatic_mem t x hst (by rw [hsp1]; simp [hx])
            exact ⟨h1, h2 d⟩
          · rcases List.mem_cons.mp hx with hx | hx
            · subst hx
              exact ⟨htr.2.1.trans hcst, hc2all d⟩
            · obtain ⟨h1, h2⟩ := AllStatic_mem t x hst (by rw [hsp1]; simp [hx])
              exact ⟨h1, h2 d⟩
    | none =>
      rw [hsplit] at hok
      simp only [] at hok
      cases hrec : addParts m h rest
          (.mk [] none (t.level + 1)
            (if nt = NodeType.Regex then pn ++ ":" ++ pat else pat)
            nt m (t.fullPath ++ "/" ++ pat)) with
      | error e => rw [hrec] at hok; simp at hok
      | ok c2 =>
        rw [hrec] at hok
        simp only [Except.ok.injEq] at hok
        subst hok
        have htr := addParts_triple m h rest _ c2 hrec
        have hc2all := ih _ c2 hrest
          (fun d => allStaticUpTo_leaf _ _ _ _ _ _ d) hrec
        intro d
        cases d with
        | zero => rfl
        | succ d =>
          simp only [allStaticUpTo, children_setChildren, List.all_eq_true,
            Bool.and_eq_true, decide_eq_true_eq]
          intro x hxm
          rcases List.mem_append.mp hxm with hx | hx
          · obtain ⟨h1, h2⟩ := AllStatic_mem t x hst hx
            exact ⟨h1, h2 d⟩
          · rcases List.mem_cons.mp hx with hx | hx
            · subst hx
              refine ⟨?_, hc2all d⟩
              rw [htr.2.1, hnt]
              rfl
            · simp at hx

/-- Unfolding of the static lookup on a nonempty segment list. -/
theorem hAt_cons (t : TrieNode) (m0 q : String) (r0 : List String) :
    hAt t m0 (q :: r0) =
      match t.children.find? (fun c => c.method == m0 && c.pattern == q) with
      | none => none
      | some c => hAt c m0 r0 := by
  unfold hAt
  simp only [staticWalk]
  cases hf : t.children.find? (fun c => c.method == m0 && c.pattern == q) <;>
    simp [hf, hAt]

/-- A successful `addParts` with Static segments makes the new handler
reachable by the static lookup. -/
theorem addParts_static_lookup (m : String) (h : RouteH) :
    ∀ (parts : List String) (t t' : TrieNode),
      (∀ part ∈ parts, (getNodeTypeAndPattern part).1 = NodeType.Static) →
      AllStatic t → addParts m h parts t = .ok t' →
      hAt t' m parts = some h := by
  intro parts
  induction parts with
  | nil =>
    intro t t' _ _ hok
    unfold addParts at hok
    cases hh : t.handler with
    | some _ => rw [hh] at hok; simp at hok
    | none =>
      rw [hh] at hok
      simp only [Except.ok.injEq] at hok
      subst hok
      unfold hAt staticWalk
      simp
  | cons part rest ih =>
    intro t t' hreg hst hok
    have hrest : ∀ q ∈ rest, (getNodeTypeAndPattern q).1 = NodeType.Static :=
      fun q hq => hreg q (by simp [hq])
    have hhead : (getNodeTypeAndPattern part).1 = NodeType.Static :=
      hreg part (by simp)
    unfold addParts at hok
    revert hok
    generalize hcl : getNodeTypeAndPattern part = cls
    obtain ⟨nt, pat, pn⟩ := cls
    intro hok
    have hnt : nt = NodeType.Static := by rw [hcl] at hhead; exact hhead
    have hpat : pat = part := classify_static part nt pat pn hcl hnt
    simp only [] at hok
    cases hsplit : findChildSplit pat nt m t.children with
    | some r =>
      obtain ⟨pre, c, post⟩ := r
      rw [hsplit] at hok
      simp only [] at hok
      cases hrec : addParts m h rest c with
      | error e => rw [hrec] at hok; simp [Except.map] at hok
      | ok c2 =>
        rw [hrec] at hok
        simp only [Except.map, Except.ok.injEq] at hok
        subst hok
        obtain ⟨hsp1, hsp2, hsp3⟩ := findChildSplit_some pat nt m
          t.children pre c post hsplit
        have hcmem : c ∈ t.children := by rw [hsp1]; simp
        obtain ⟨hcst, hcall⟩ := AllStatic_mem t c hst hcmem
        have htr := addParts_triple m h rest c c2 hrec
        have hc2st : c2.nodeType = NodeType.Static := htr.2.1.trans hcst
        have hc2match : addChildMatch pat nt m c2 = true := by
          unfold addChildMatch at hsp3 ⊢
          rw [htr.1, htr.2.1, htr.2.2]
          exact hsp3
        rw [hAt_cons]
        rw [children_setChildren]
        have hfind : (pre ++ c2 :: post).find?
            (fun x => x.method == m && x.pattern == part) = some c2 := by
          apply find?_build
          · intro x hx
            have hxmem : x ∈ t.children := by rw [hsp1]; simp [hx]
            rw [static_pred_eq m part x (AllStatic_mem t x hst hxmem).1,
              ← hpat, ← hnt]
            exact hsp2 x hx
          · rw [static_pred_eq m part c2 hc2st, ← hpat, ← hnt]
            exact hc2match
        rw [hfind]
        exact ih c c2 hrest hcall hrec
    | none =>
      rw [hsplit] at hok
      simp only [] at hok
      cases hrec : addParts m h rest
          (.mk [] none (t.level + 1)
            (if nt = NodeType.Regex then pn ++ ":" ++ pat else pat)
            nt m (t.fullPath ++ "/" ++ pat)) with
      | error e => rw [hrec] at hok; simp at hok
      | ok c2 =>
        rw [hrec] at hok
        simp only [Except.ok.injEq] at hok
        subst hok
        have htr := addParts_triple m h rest _ c2 hrec
        have hc2st : c2.nodeType = NodeType.Static := by
          rw [htr.2.1, hnt]
          rfl
        have hc2pat : c2.pattern = part := by
          rw [htr.1]
          simp only [TrieNode.pattern]
          rw [if_neg (by rw [hnt]; intro hcon; cases hcon), hpat]
        have hc2m : c2.method = m := htr.2.2
        rw [hAt_cons]
        rw [children_setChildren]
        have hfind : (t.children ++ [c2]).find?
            (fun x => x.method == m && x.pattern == part) = some c2 := by
          apply find?_build
          · intro x hx
            rw [static_pred_eq m part x (AllStatic_mem t x hst hx).1,
              ← hpat, ← hnt]
            exact findChildSplit_none pat nt m t.children hsplit x hx
          · rw [hc2m, hc2pat]
            simp
        rw [hfind]
        exact ih _ c2 hrest (fun d => allStaticUpTo_leaf _ _ _ _ _ _ d) hrec

/-- A successful `addParts` never unbinds or rebinds an existing
handler: every (method, segments) that resolved to a handler before
still resolves to the same handler. -/
theorem addParts_hAt_preserve (m : String) (h : RouteH) :
    ∀ (parts : List String) (t t' : TrieNode),
      addParts m h parts t = .ok t' →
      ∀ (m0 : String) (parts0 : List String) (h0 : RouteH),
        hAt t m0 parts0 = some h0 → hAt t' m0 parts0 = some h0 := by
  intro parts
  induction parts with
  | nil =>
    intro t t' hok m0 parts0 h0 hprev
    unfold addParts at hok
    cases hh : t.handler with
    | some _ => rw [hh] at hok; simp at hok
    | none =>
      rw [hh] at hok
      simp only [Except.ok.injEq] at hok
      subst hok
      cases parts0 with
      | nil =>
        unfold hAt staticWalk at hprev
        simp only [Option.some_bind] at hprev
        rw [hh] at hprev
        cases hprev
      | cons q r0 =>
        rw [hAt_cons] at hprev ⊢
        rw [children_setHandler]
        exact hprev
  | cons part rest ih =>
    intro t t' hok m0 parts0 h0 hprev
    unfold addParts at hok
    revert hok
    generalize hcl : getNodeTypeAndPattern part = cls
    obtain ⟨nt, pat, pn⟩ := cls
    intro hok
    simp only [] at hok
    cases hsplit : findChildSplit pat nt m t.children with
    | some r =>
      obtain ⟨pre, c, post⟩ := r
      rw [hsplit] at hok
      simp only [] at hok
      cases hrec : addParts m h rest c with
      | error e => rw [hrec] at hok; simp [Except.map] at hok
      | ok c2 =>
        rw [hrec] at hok
        simp only [Except.map, Except.ok.injEq] at hok
        subst hok
        obtain ⟨hsp1, _, _⟩ := findChildSplit_some pat nt m
          t.children pre c post hsplit
        have htr := addParts_triple m h rest c c2 hrec
        cases parts0 with
        | nil =>
          unfold hAt staticWalk at hprev ⊢
          simp only [Option.some_bind] at hprev ⊢
          rw [handler_setChildren]
          exact hprev
        | cons q r0 =>
          rw [hAt_cons] at hprev ⊢
          rw [children_setChildren]
          rw [hsp1] at hprev
          rw [List.find?_append] at hprev ⊢
          cases hfp : pre.find? (fun x => x.method == m0 && x.pattern == q) with
          | some x =>
            rw [hfp] at hprev
            simp only [Option.or] at hprev ⊢
            exact hprev
          | none =>
            rw [hfp] at hprev
            simp only [Option.none_or] at hprev ⊢
            have hpred : (c2.method == m0 && c2.pattern == q) =
                (c.method == m0 && c.pattern == q) := by
              rw [htr.1, htr.2.2]
            cases hpc : (c.method == m0 && c.pattern == q) with
            | true =>
              rw [@List.find?_cons_of_pos _
                (fun x => x.method == m0 && x.pattern == q) c post hpc]
                at hprev
              rw [@List.find?_cons_of_pos _
                (fun x => x.method == m0 && x.pattern == q) c2 post
                (hpred.trans hpc)]
              simp only [] at hprev ⊢
              exact ih c c2 hrec m0 r0 h0 hprev
            | false =>
              rw [@List.find?_cons_of_neg _
                (fun x => x.method == m0 && x.pattern == q) c post
                (by simp [hpc])] at hprev
              rw [@List.find?_cons_of_neg _
                (fun x => x.method == m0 && x.pattern == q) c2 post
                (by simp [hpred, hpc])]
              cases hfq : post.find?
                  (fun x => x.method == m0 && x.pattern == q) with
              | none => rw [hfq] at hprev; simp at hprev
              | some y => rw [hfq] at hprev; exact hprev
    | none =>
      rw [hsplit] at hok
      simp only [] at hok
      cases hrec : addParts m h rest
          (.mk [] none (t.level + 1)
            (if nt = NodeType.Regex then pn ++ ":" ++ pat else pat)
            nt m (t.fullPath ++ "/" ++ pat)) with
      | error e => rw [hrec] at hok; simp at hok
      | ok c2 =>
        rw [hrec] at hok
        simp only [Except.ok.injEq] at hok
        subst hok
        cases parts0 with
        | nil =>
          unfold hAt staticWalk at hprev ⊢
          simp only [Option.some_bind] at hprev ⊢
          rw [handler_setChildren]
          exact hprev
        | cons q r0 =>
          rw [hAt_cons] at hprev ⊢
          rw [children_setChildren]
          rw [List.find?_append]
          cases hfp : t.children.find?
              (fun x => x.method == m0 && x.pattern == q) with
          | some x =>
            rw [hfp] at hprev
            simp only [Option.or]
            exact hprev
          | none => rw [hfp] at hprev; simp at hprev

/-- A successful sequence of Static-only registrations keeps the trie
all-Static, preserves previously bound handlers, and makes every
registration's handler reachable under its own (method, segments). -/
theorem addRoutes_static :
    ∀ (regs : List (String × String × RouteH)) (t t' : TrieNode),
      (∀ r ∈ regs, ∀ part ∈ splitPath r.2.1,
        (getNodeTypeAndPattern part).1 = NodeType.Static) →
      AllStatic t → addRoutes regs t = .ok t' →
      AllStatic t' ∧
      (∀ (m0 : String) (parts0 : List String) (h0 : RouteH),
        hAt t m0 parts0 = some h0 → hAt t' m0 parts0 = some h0) ∧
      (∀ r ∈ regs, hAt t' r.1 (splitPath r.2.1) = some r.2.2) := by
  intro regs
  induction regs with
  | nil =>
    intro t t' _ hst hok
    unfold addRoutes at hok
    simp only [Except.ok.injEq] at hok
    subst hok
    exact ⟨hst, fun _ _ _ hp => hp, by simp⟩
  | cons r regs' ih =>
    intro t t' hreg hst hok
    obtain ⟨m0, p0, h0⟩ := r
    have hhead : ∀ part ∈ splitPath p0,
        (getNodeTypeAndPattern part).1 = NodeType.Static :=
      hreg (m0, p0, h0) (by simp)
    have hrest : ∀ r ∈ regs', ∀ part ∈ splitPath r.2.1,
        (getNodeTypeAndPattern part).1 = NodeType.Static :=
      fun r hr => hreg r (by simp [hr])
    unfold addRoutes at hok
    cases hstep : addRoute t m0 p0 h0 with
    | error e => rw [hstep] at hok; simp at hok
    | ok t2 =>
      rw [hstep] at hok
      simp only [] at hok
      have hst2 : AllStatic t2 :=
        addParts_static_preserve m0 h0 (splitPath p0) t t2 hhead hst hstep
      have hlook : hAt t2 m0 (splitPath p0) = some h0 :=
        addParts_static_lookup m0 h0 (splitPath p0) t t2 hhead hst hstep
      obtain ⟨hst', hpres', hmem'⟩ := ih t2 t' hrest hst2 hok
      refine ⟨hst', ?_, ?_⟩
      · intro m1 parts1 h1 hp
        exact hpres' m1 parts1 h1
          (addParts_hAt_preserve m0 h0 (splitPath p0) t t2 hstep m1 parts1 h1 hp)
      · intro r hr
        rcases List.mem_cons.mp hr with hr | hr
        · subst hr
          exact hpres' m0 (splitPath p0) h0 hlook
        · exact hmem' r hr

/-- C1, amended.  For a set of registrations whose path patterns consist
only of Static segments and are already lower-case, registered through
`AddRoute` without a duplicate panic, a request whose method and path
exactly equal one registered (method, path) produces the dispatch trace
`[handler h []]`: that registration's handler is invoked exactly once,
with no parameters bound, and no handler of any other registration (and
no fallback handler) is invoked. -/
theorem c1_static_exact_dispatch (regs : List (String × String × Nat))
    (t : TrieNode) (m p : String) (h : Nat)
    (hstatic : ∀ r ∈ regs, ∀ part ∈ splitPath r.2.1,
      (getNodeTypeAndPattern part).1 = NodeType.Static)
    (hlower : ∀ r ∈ regs, toLowerStr r.2.1 = r.2.1)
    (hok : addRoutes (regs.map (fun r => (r.1, r.2.1, RouteH.plain r.2.2)))
      rootNode = .ok t)
    (hmem : (m, p, h) ∈ regs) :
    serve { root := t, instances := [defaultRouter] } 0 envOk m p =
      [Event.handler h []] := by
  have hstatic' : ∀ r ∈ regs.map (fun r => (r.1, r.2.1, RouteH.plain r.2.2)),
      ∀ part ∈ splitPath r.2.1,
        (getNodeTypeAndPattern part).1 = NodeType.Static := by
    intro r hr
    obtain ⟨r0, hr0, hr0e⟩ := List.mem_map.mp hr
    subst hr0e
    exact hstatic r0 hr0
  obtain ⟨hstT, _, hmemAll⟩ := addRoutes_static _ rootNode t hstatic'
    (fun d => allStaticUpTo_leaf 0 "" .Static "" "" none d) hok
  have hr : hAt t m (splitPath p) = some (.plain h) :=
    hmemAll (m, p, RouteH.plain h) (List.mem_map.mpr ⟨(m, p, h), hmem, rfl⟩)
  have hlow : toLowerStr p = p := hlower (m, p, h) hmem
  unfold hAt at hr
  cases hsw : staticWalk m (splitPath p) t with
  | none => rw [hsw] at hr; cases hr
  | some n =>
    rw [hsw] at hr
    simp only [Option.some_bind] at hr
    have hwalk : walkParts m (splitPath (toLowerStr p)) t [] =
        .ok (some (n, [])) := by
      rw [hlow, walkParts_static m (splitPath p) t [] hstT, hsw]
      rfl
    have hphase := servePhase2_plain_ok
      { root := t, instances := [defaultRouter] } defaultRouter envOk
      n [] h [] [] hr rfl rfl rfl
    have hcore := serveCore_done
      { root := t, instances := [defaultRouter] } defaultRouter envOk
      m p [] [] ([Event.handler h []] ++ [] ++ []) (some (n, [])) none
      rfl rfl hwalk hphase
    have hs := serve_eq_of_inst
      { root := t, instances := [defaultRouter] } 0 defaultRouter envOk
      m p _ none rfl hcore
    rw [hs]
    simp

/-- Witness for C1: registrations GET `/a` and GET `/b`; the request
GET `/a` invokes handler 1 exactly once. -/
theorem c1_witness :
    serve
      { root := .mk
          [.mk [] (some (.plain 1)) 1 "a" .Static "GET" "/a",
           .mk [] (some (.plain 2)) 1 "b" .Static "GET" "/b"]
          none 0 "" .Static "" "",
        instances := [defaultRouter] } 0 envOk "GET" "/a" =
      [Event.handler 1 []] := by
  exact c1_static_exact_dispatch
    [("GET", "/a", 1), ("GET", "/b", 2)] _ "GET" "/a" 1
    (by decide) (by decide) rfl (by simp)

end Invoke
